import Mathlib

/-!
Verification of the background-removal worker (`worker.js`) of
line-sticker-factory.

The pixel buffer is modelled as a `List ℕ` of bytes in R,G,B,A order,
row-major.  JavaScript numbers are modelled exactly: the flood-fill and
erosion passes only ever form rational values, so they are embedded over
`ℚ` and stay fully computable; the feathered pass takes a square root, so
its similarity scores and the three-zone alpha rule live in `ℝ`.
-/

set_option autoImplicit false

/-- JavaScript `String.prototype.toLowerCase` restricted to the characters
that occur in color strings (`Char.toLower` on every character). -/
def jsToLower (s : String) : String := ⟨s.data.map Char.toLower⟩

/-- Value of one hex digit, case-insensitive (`[a-f\d]` of the regex in
`hexToRgb`); `none` for any other character. -/
def hexDigitVal (c : Char) : Option ℕ :=
  if '0' ≤ c ∧ c ≤ '9' then some (c.toNat - 48)
  else if 'a' ≤ c ∧ c ≤ 'f' then some (c.toNat - 87)
  else if 'A' ≤ c ∧ c ≤ 'F' then some (c.toNat - 55)
  else none

/-- `parseInt(d₁d₂, 16)` for two hex digits. -/
def hexPairVal (c d : Char) : Option ℕ := do
  let hi ← hexDigitVal c
  let lo ← hexDigitVal d
  pure (16 * hi + lo)

/-- An RGB triple as produced by `hexToRgb`. -/
structure Rgb where
  r : ℕ
  g : ℕ
  b : ℕ
deriving DecidableEq, Repr

/-- `hexToRgb` of worker.js: matches `^#?([a-f\d]{2})([a-f\d]{2})([a-f\d]{2})$`
case-insensitively and returns the three channels, `none` on malformed
input. -/
def hexToRgb (hex : String) : Option Rgb :=
  let cs := hex.data
  let cs := if cs.head? = some '#' then cs.tail else cs
  match cs with
  | [c1, c2, c3, c4, c5, c6] => do
      let r ← hexPairVal c1 c2
      let g ← hexPairVal c3 c4
      let b ← hexPairVal c5 c6
      pure ⟨r, g, b⟩
  | _ => none

/-! ## Feathered matte (`removeBgFeathered`) -/

/-- The inlined green-screen similarity of `removeBgFeathered`:
`1 - (|g - 255| * 0.5 + |r - 0| + |b - 0|) / 442`. -/
noncomputable def greenSim (r g b : ℕ) : ℝ :=
  1 - (|(g : ℝ) - 255| * 0.5 + (|(r : ℝ) - 0| + |(b : ℝ) - 0|)) / 442

/-- The inlined RGB similarity of `removeBgFeathered`:
`1 - sqrt(((r-tr)² + (g-tg)² + (b-tb)²) / 442²)`. -/
noncomputable def rgbSim (tr tg tb : ℕ) (r g b : ℕ) : ℝ :=
  1 - Real.sqrt ((((r : ℝ) - tr) * ((r : ℝ) - tr) +
      ((g : ℝ) - tg) * ((g : ℝ) - tg) +
      ((b : ℝ) - tb) * ((b : ℝ) - tb)) / (442 * 442))

open Classical in
/-- The inlined three-zone alpha computation of `removeBgFeathered`:
fully transparent at or above `edgeStart`, a rounded linear ramp strictly
between `edgeEnd` and `edgeStart`, fully opaque at or below `edgeEnd`. -/
noncomputable def alphaRule (sim edgeStart edgeEnd range : ℝ) : ℕ :=
  if edgeStart ≤ sim then 0
  else if edgeEnd < sim then (round (255 * (1 - (sim - edgeEnd) / range))).toNat
  else 255

/-- The per-pixel loop of `removeBgFeathered`: steps through the buffer four
bytes at a time, replacing each alpha byte by the three-zone rule applied to
the similarity of the R,G,B bytes before it.  A ragged tail of fewer than
four bytes is left unchanged (the JavaScript write at `i+3` would fall
outside the typed array). -/
noncomputable def feaAlpha (simf : ℕ → ℕ → ℕ → ℝ) (es ee range : ℝ) :
    List ℕ → List ℕ
  | r :: g :: b :: _ :: rest =>
      r :: g :: b :: alphaRule (simf r g b) es ee range ::
        feaAlpha simf es ee range rest
  | rest => rest

/-- `removeBgFeathered` of worker.js. -/
noncomputable def removeBgFeathered (data : List ℕ) (targetHex : String)
    (tolerancePercent smoothnessPercent : ℚ) : List ℕ :=
  let edgeStart : ℝ := (tolerancePercent : ℝ) / 100
  let edgeEnd : ℝ := max 0 (edgeStart - (smoothnessPercent : ℝ) / 100)
  let range : ℝ := edgeStart - edgeEnd
  if jsToLower targetHex = "#00ff00" then
    feaAlpha greenSim edgeStart edgeEnd range data
  else
    let t := (hexToRgb targetHex).getD ⟨0, 0, 0⟩
    feaAlpha (rgbSim t.r t.g t.b) edgeStart edgeEnd range data

/-! ## Flood-fill matte (`removeBgFloodFill`) -/

/-- The inlined green-screen hit-test of `removeBgFloodFill`: a
green-dominance gate, inside it the fast dominant-green override, otherwise
the HSV hue/saturation/value thresholds. -/
def isBgGreenFlood (tolerancePercent : ℚ) (r g b : ℕ) : Bool :=
  let toleranceFactor : ℚ := tolerancePercent / 100
  let greenPurityMultiplier : ℚ := 1.2 * (1 - toleranceFactor * 0.5)
  let minSat : ℚ := max 0.1 (0.5 * (1 - toleranceFactor * 0.5))
  let minVal : ℚ := max 0.1 (0.5 * (1 - toleranceFactor * 0.5))
  if (g : ℚ) > r * greenPurityMultiplier ∧ (g : ℚ) > b * greenPurityMultiplier then
    if g > r + 30 ∧ g > b + 30 ∧ g > 80 then
      true
    else
      let M := max r (max g b)
      let m := min r (min g b)
      let delta := M - m
      if delta ≠ 0 then
        let hue0 : ℚ :=
          if M = g then 60 * (((b : ℚ) - r) / delta + 2)
          else if M = r then 60 * (((g : ℚ) - b) / delta + 4)
          else 60 * (((r : ℚ) - g) / delta)
        let hue : ℚ := if hue0 < 0 then hue0 + 360 else hue0
        let saturation : ℚ := (delta : ℚ) / M
        let value : ℚ := (M : ℚ) / 255
        decide (60 ≤ hue ∧ hue ≤ 180 ∧ saturation ≥ minSat ∧ value ≥ minVal)
      else false
  else false

/-- The inlined RGB hit-test of `removeBgFloodFill`:
squared distance to the target at most `(442 * tolerance/100)²`. -/
def isBgRgbFlood (tr tg tb : ℕ) (tolerancePercent : ℚ) (r g b : ℕ) : Bool :=
  let toleranceFactor : ℚ := tolerancePercent / 100
  let toleranceDist : ℚ := 442 * toleranceFactor
  decide ((((r : ℚ) - tr) * ((r : ℚ) - tr) + ((g : ℚ) - tg) * ((g : ℚ) - tg) +
      ((b : ℚ) - tb) * ((b : ℚ) - tb)) ≤ toleranceDist * toleranceDist)

/-- The background hit-test `removeBgFloodFill` selects from its target
color: green-screen HSV test for `#00ff00` (case-insensitive), RGB distance
otherwise, with the black fallback for unparseable hex strings. -/
def floodBgOf (targetHex : String) (tolerancePercent : ℚ) : ℕ → ℕ → ℕ → Bool :=
  if jsToLower targetHex = "#00ff00" then isBgGreenFlood tolerancePercent
  else
    let t := (hexToRgb targetHex).getD ⟨0, 0, 0⟩
    isBgRgbFlood t.r t.g t.b tolerancePercent

/-- State of the flood-fill loop: the byte buffer, the visited mask
(the set of in-bounds coordinates already marked in the `Uint8Array`), and
the work stack with its top at the head. -/
structure FloodState where
  data : List ℕ
  visited : Finset (ℤ × ℤ)
  stack : List (ℤ × ℤ)
deriving DecidableEq

/-- Neighbor offsets in the order the loop pops them: the code pushes
`(x+1,y), (x-1,y), (x,y+1), (x,y-1)` and pops from the end of the array. -/
def nbrOffs : List (ℤ × ℤ) := [(0, -1), (0, 1), (-1, 0), (1, 0)]

/-- The four corner seeds in the order the loop pops them: the code seeds
`[0,0], [w-1,0], [0,h-1], [w-1,h-1]` and pops from the end. -/
def floodSeeds (w h : ℕ) : List (ℤ × ℤ) :=
  [((w : ℤ) - 1, (h : ℤ) - 1), (0, (h : ℤ) - 1), ((w : ℤ) - 1, 0), (0, 0)]

/-- Linear pixel offset `y*w + x` of a coordinate. -/
def offOf (w : ℕ) (p : ℤ × ℤ) : ℕ := (p.2 * w + p.1).toNat

/-- One iteration of the `while (stack.length)` loop of
`removeBgFloodFill`: pop a coordinate; skip it if out of bounds or already
visited; otherwise mark it visited, run the hit-test on its R,G,B bytes
and, when it is background, clear its alpha byte and push the four
neighbors.  On an empty stack the state is returned unchanged. -/
def floodStep (w h : ℕ) (bg : ℕ → ℕ → ℕ → Bool) (offs : List (ℤ × ℤ)) :
    FloodState → FloodState
  | ⟨data, visited, []⟩ => ⟨data, visited, []⟩
  | ⟨data, visited, p :: rest⟩ =>
    if p.1 < 0 ∨ (w : ℤ) ≤ p.1 ∨ p.2 < 0 ∨ (h : ℤ) ≤ p.2 ∨ p ∈ visited then
      ⟨data, visited, rest⟩
    else
      let off := offOf w p
      let r := data.getD (off * 4) 0
      let g := data.getD (off * 4 + 1) 0
      let b := data.getD (off * 4 + 2) 0
      if bg r g b then
        ⟨data.set (off * 4 + 3) 0, insert p visited,
          (offs.map fun d => (p.1 + d.1, p.2 + d.2)) ++ rest⟩
      else
        ⟨data, insert p visited, rest⟩

/-- Iterate `floodStep` a given number of times. -/
def floodRun (w h : ℕ) (bg : ℕ → ℕ → ℕ → Bool) (offs : List (ℤ × ℤ)) :
    ℕ → FloodState → FloodState
  | 0, σ => σ
  | n + 1, σ => floodRun w h bg offs n (floodStep w h bg offs σ)

/-- Fuel that always suffices for the loop to drain its stack: five steps
per pixel plus one per initial stack entry (proved below). -/
def floodFuel (w h : ℕ) (seeds : List (ℤ × ℤ)) : ℕ := 5 * (w * h) + seeds.length

/-- `removeBgFloodFill` with an explicit neighbor-pop order and seed list;
the loop runs until the stack is empty (the fuel is proved sufficient). -/
def removeBgFloodFillWith (offs seeds : List (ℤ × ℤ)) (data : List ℕ)
    (w h : ℕ) (targetHex : String) (tolerancePercent : ℚ) : List ℕ :=
  (floodRun w h (floodBgOf targetHex tolerancePercent) offs
    (floodFuel w h seeds) ⟨data, ∅, seeds⟩).data

/-- `removeBgFloodFill` of worker.js: corner-seeded, LIFO stack. -/
def removeBgFloodFill (data : List ℕ) (w h : ℕ) (targetHex : String)
    (tolerancePercent : ℚ) : List ℕ :=
  removeBgFloodFillWith nbrOffs (floodSeeds w h) data w h targetHex
    tolerancePercent

/-! ## Erosion (`applyErosion`) -/

/-- Row-major list of linear indices of the pixels strictly inside the
border (`1 ≤ x < w-1`, `1 ≤ y < h-1`), the pixels one erosion pass
visits. -/
def erodeCoords (w h : ℕ) : List ℕ :=
  ((List.range h).filter fun y => 1 ≤ y ∧ y + 1 < h).flatMap fun y =>
    ((List.range w).filter fun x => 1 ≤ x ∧ x + 1 < w).map fun x => y * w + x

/-- One iteration of the erosion loop: snapshot the alpha plane
(`currentAlpha`), then clear the live alpha of every interior pixel whose
snapshot alpha is nonzero and that has a four-neighbor with snapshot alpha
zero. -/
def erodeOnce (w h : ℕ) (data : List ℕ) : List ℕ :=
  let snap : ℕ → ℕ := fun i => data.getD (i * 4 + 3) 0
  (erodeCoords w h).foldl
    (fun d idx =>
      if snap idx ≠ 0 ∧ (snap (idx - 1) = 0 ∨ snap (idx + 1) = 0 ∨
          snap (idx - w) = 0 ∨ snap (idx + w) = 0) then
        d.set (idx * 4 + 3) 0
      else d)
    data

/-- `applyErosion` of worker.js: identity for `strength ≤ 0`, otherwise
`strength` erosion passes. -/
def applyErosion (data : List ℕ) (w h : ℕ) (strength : ℤ) : List ℕ :=
  if strength ≤ 0 then data else (erodeOnce w h)^[strength.toNat] data

/-! ## The worker pipeline (`onmessage`) -/

/-- The fields of the request message that the processing code reads.
`rawImageData` stands for the `data` byte array of the posted
`ImageData`; `width` and `height` are taken from the message itself, as
the code does. -/
structure Request where
  rawImageData : List ℕ
  width : ℕ
  height : ℕ
  removalMode : String
  targetColorHex : String
  colorTolerance : ℚ
  smoothness : ℚ
  erodeStrength : ℤ

/-- The processing performed by the `onmessage` handler: flood fill when
`removalMode === 'flood'`, feathered matte otherwise, then erosion.  The
buffer is processed and returned with no validation of any kind. -/
noncomputable def runPipeline (req : Request) : List ℕ :=
  let processed :=
    if req.removalMode = "flood" then
      removeBgFloodFill req.rawImageData req.width req.height
        req.targetColorHex req.colorTolerance
    else
      removeBgFeathered req.rawImageData req.targetColorHex
        req.colorTolerance req.smoothness
  applyErosion processed req.width req.height req.erodeStrength

/-! ## Specification-side notions -/

/-- HSV saturation of a pixel, `(max - min) / max` (0 for black), as the
flood-fill HSV branch computes it and as the specification uses it. -/
def hsvSaturation (r g b : ℕ) : ℚ :=
  let M := max r (max g b)
  if M = 0 then 0 else ((M : ℚ) - min r (min g b)) / M

/-- The in-bounds pixel grid as a finite set of coordinates. -/
def grid (w h : ℕ) : Finset (ℤ × ℤ) :=
  Finset.Ico 0 (w : ℤ) ×ˢ Finset.Ico 0 (h : ℤ)

/-- Four-axis adjacency: `q` is one step up, down, left or right of `p`. -/
def adj (p q : ℤ × ℤ) : Prop := (q.1 - p.1, q.2 - p.2) ∈ nbrOffs

/-- The background predicate of a buffer at a coordinate: the hit-test
applied to the three color bytes stored for that pixel. -/
def bgAt (bg : ℕ → ℕ → ℕ → Bool) (w : ℕ) (data : List ℕ) (p : ℤ × ℤ) : Prop :=
  bg (data.getD (offOf w p * 4) 0) (data.getD (offOf w p * 4 + 1) 0)
    (data.getD (offOf w p * 4 + 2) 0) = true

/-- One connectivity step: move to an adjacent, in-bounds, background
coordinate. -/
def floodRel (w h : ℕ) (bg : ℕ → ℕ → ℕ → Bool) (data : List ℕ)
    (p q : ℤ × ℤ) : Prop :=
  adj p q ∧ q ∈ grid w h ∧ bgAt bg w data q

/-- Reachability through background pixels from one of the seed
coordinates: an in-bounds background seed joined to `p` by a 4-connected
path of in-bounds background pixels. -/
def ReachesFrom (seeds : List (ℤ × ℤ)) (w h : ℕ) (bg : ℕ → ℕ → ℕ → Bool)
    (data : List ℕ) (p : ℤ × ℤ) : Prop :=
  ∃ s ∈ seeds, s ∈ grid w h ∧ bgAt bg w data s ∧
    Relation.ReflTransGen (floodRel w h bg data) s p

/-! ## List access helpers -/

theorem getD_set_ne (a d : ℕ) : ∀ (l : List ℕ) (i j : ℕ), i ≠ j →
    (l.set i a).getD j d = l.getD j d
  | [], _, _, _ => rfl
  | _ :: _, 0, 0, hij => absurd rfl hij
  | _ :: _, 0, _ + 1, _ => rfl
  | _ :: _, _ + 1, 0, _ => rfl
  | x :: l, i + 1, j + 1, hij => by
      simpa using getD_set_ne a d l i j (fun h => hij (by omega))

theorem getD_set_self (a d : ℕ) : ∀ (l : List ℕ) (i : ℕ), i < l.length →
    (l.set i a).getD i d = a
  | [], i, hi => absurd hi (by simp)
  | x :: l, 0, _ => rfl
  | x :: l, i + 1, hi => by
      simpa using getD_set_self a d l i (by simpa using hi)

theorem getD_set_zero (d : ℕ) (l : List ℕ) (i j : ℕ) (h : l.getD j d = 0) :
    (l.set i 0).getD j d = 0 := by
  rcases eq_or_ne i j with rfl | hne
  · rcases lt_or_le i l.length with hlt | hle
    · exact getD_set_self 0 d l i hlt
    · rw [List.set_eq_of_length_le hle]
      exact h
  · rw [getD_set_ne 0 d l i j hne]
    exact h

/-! ## Grid and offset helpers -/

theorem mem_grid {w h : ℕ} {p : ℤ × ℤ} :
    p ∈ grid w h ↔ 0 ≤ p.1 ∧ p.1 < (w : ℤ) ∧ 0 ≤ p.2 ∧ p.2 < (h : ℤ) := by
  simp only [grid, Finset.mem_product, Finset.mem_Ico]
  tauto

theorem offOf_lt {w h : ℕ} {p : ℤ × ℤ} (hp : p ∈ grid w h) : offOf w p < w * h := by
  rw [mem_grid] at hp
  obtain ⟨h1, h2, h3, h4⟩ := hp
  have hw : (0 : ℤ) < w := lt_of_le_of_lt h1 h2
  have hmul : p.2 * w ≤ ((h : ℤ) - 1) * w :=
    mul_le_mul_of_nonneg_right (by omega) (le_of_lt hw)
  have hnn : (0 : ℤ) ≤ p.2 * w := mul_nonneg h3 (le_of_lt hw)
  have hring : ((h : ℤ) - 1) * w = (w : ℤ) * h - w := by ring
  have hcast : (((w * h : ℕ)) : ℤ) = (w : ℤ) * h := by push_cast; ring
  unfold offOf
  omega

theorem offOf_inj {w h : ℕ} {p q : ℤ × ℤ} (hp : p ∈ grid w h) (hq : q ∈ grid w h)
    (heq : offOf w p = offOf w q) : p = q := by
  rw [mem_grid] at hp hq
  obtain ⟨hp1, hp2, hp3, hp4⟩ := hp
  obtain ⟨hq1, hq2, hq3, hq4⟩ := hq
  have hw : (0 : ℤ) < w := lt_of_le_of_lt hp1 hp2
  have hzp : (0 : ℤ) ≤ p.2 * w := mul_nonneg hp3 (le_of_lt hw)
  have hzq : (0 : ℤ) ≤ q.2 * w := mul_nonneg hq3 (le_of_lt hw)
  have hint : p.2 * (w : ℤ) + p.1 = q.2 * w + q.1 := by
    unfold offOf at heq
    omega
  have hx : p.1 = q.1 := by
    have e1 : (p.1 + p.2 * (w : ℤ)) % w = p.1 := by
      rw [Int.add_mul_emod_self]
      exact Int.emod_eq_of_lt hp1 hp2
    have e2 : (q.1 + q.2 * (w : ℤ)) % w = q.1 := by
      rw [Int.add_mul_emod_self]
      exact Int.emod_eq_of_lt hq1 hq2
    have e3 : p.1 + p.2 * (w : ℤ) = q.1 + q.2 * w := by omega
    rw [← e1, e3, e2]
  have hy : p.2 = q.2 := by
    have hcancel : p.2 * (w : ℤ) = q.2 * w := by omega
    exact mul_right_cancel₀ (ne_of_gt hw) hcancel
  exact Prod.ext hx hy

theorem offOf_surj {w h k : ℕ} (hk : k < w * h) :
    ∃ p ∈ grid w h, offOf w p = k := by
  have hw : 0 < w := by
    rcases Nat.eq_zero_or_pos w with rfl | hw
    · omega
    · exact hw
  refine ⟨((k % w : ℕ), (k / w : ℕ)), ?_, ?_⟩
  · rw [mem_grid]
    refine ⟨by positivity, ?_, by positivity, ?_⟩
    · show ((k % w : ℕ) : ℤ) < (w : ℤ)
      exact_mod_cast Nat.mod_lt _ hw
    · show ((k / w : ℕ) : ℤ) < (h : ℤ)
      have : k / w < h := Nat.div_lt_of_lt_mul (by omega)
      exact_mod_cast this
  · unfold offOf
    have hnat : k / w * w + k % w = k := by
      rw [mul_comm]
      exact Nat.div_add_mod k w
    have : ((k / w : ℕ) : ℤ) * ((w : ℕ) : ℤ) + ((k % w : ℕ) : ℤ) = ((k : ℕ) : ℤ) := by
      exact_mod_cast congrArg (fun n : ℕ => (n : ℤ)) hnat
    show (((k / w : ℕ) : ℤ) * w + ((k % w : ℕ) : ℤ)).toNat = k
    rw [this]
    simp

theorem grid_card (w h : ℕ) : (grid w h).card = w * h := by
  unfold grid
  rw [Finset.card_product]
  simp [Int.card_Ico]

/-! ## Feathered-pass lemmas -/

theorem alphaRule_zone1 {sim es ee range : ℝ} (h : es ≤ sim) :
    alphaRule sim es ee range = 0 := by
  unfold alphaRule
  rw [if_pos h]

theorem alphaRule_zone2 {sim es ee range : ℝ} (h1 : ee < sim) (h2 : sim < es) :
    alphaRule sim es ee range = (round (255 * (1 - (sim - ee) / range))).toNat := by
  unfold alphaRule
  rw [if_neg (not_le.mpr h2), if_pos h1]

theorem alphaRule_zone3 {sim es ee range : ℝ} (h1 : sim ≤ ee) (h2 : sim < es) :
    alphaRule sim es ee range = 255 := by
  unfold alphaRule
  rw [if_neg (not_le.mpr h2), if_neg (not_lt.mpr h1)]

theorem feaAlpha_length (simf : ℕ → ℕ → ℕ → ℝ) (es ee range : ℝ) :
    ∀ l : List ℕ, (feaAlpha simf es ee range l).length = l.length
  | [] => rfl
  | [_] => rfl
  | [_, _] => rfl
  | [_, _, _] => rfl
  | _ :: _ :: _ :: _ :: rest => by
      simp only [feaAlpha, List.length_cons]
      rw [feaAlpha_length simf es ee range rest]

theorem feaAlpha_getD_rgb (simf : ℕ → ℕ → ℕ → ℝ) (es ee range : ℝ) :
    ∀ (l : List ℕ) (j : ℕ), j % 4 ≠ 3 →
      (feaAlpha simf es ee range l).getD j 0 = l.getD j 0
  | [], _, _ => rfl
  | [_], _, _ => rfl
  | [_, _], _, _ => rfl
  | [_, _, _], _, _ => rfl
  | a :: b :: c :: e :: rest, j, hj => by
      match j, hj with
      | 0, _ => rfl
      | 1, _ => rfl
      | 2, _ => rfl
      | 3, hj => exact absurd rfl hj
      | (j + 4), hj =>
          show (feaAlpha simf es ee range rest).getD j 0 = rest.getD j 0
          exact feaAlpha_getD_rgb simf es ee range rest j (by omega)

theorem feaAlpha_getD_alpha (simf : ℕ → ℕ → ℕ → ℝ) (es ee range : ℝ) :
    ∀ (l : List ℕ) (i : ℕ), 4 * i + 3 < l.length →
      (feaAlpha simf es ee range l).getD (4 * i + 3) 0 =
        alphaRule (simf (l.getD (4 * i) 0) (l.getD (4 * i + 1) 0)
          (l.getD (4 * i + 2) 0)) es ee range
  | [], _, hi => by
      simp only [List.length_nil] at hi
      omega
  | [_], _, hi => by
      simp only [List.length_cons, List.length_nil] at hi
      omega
  | [_, _], _, hi => by
      simp only [List.length_cons, List.length_nil] at hi
      omega
  | [_, _, _], _, hi => by
      simp only [List.length_cons, List.length_nil] at hi
      omega
  | a :: b :: c :: e :: rest, 0, _ => rfl
  | a :: b :: c :: e :: rest, i + 1, hi => by
      have h4 : 4 * (i + 1) + 3 = (4 * i + 3) + 4 := by omega
      rw [h4]
      show (feaAlpha simf es ee range rest).getD (4 * i + 3) 0 =
        alphaRule (simf (rest.getD (4 * i) 0) (rest.getD (4 * i + 1) 0)
          (rest.getD (4 * i + 2) 0)) es ee range
      exact feaAlpha_getD_alpha simf es ee range rest i
        (by simp only [List.length_cons] at hi; omega)

/-! ## Flood-fill loop: basic lemmas -/

theorem floodStep_stack_nil {w h : ℕ} {bg : ℕ → ℕ → ℕ → Bool}
    {offs : List (ℤ × ℤ)} {σ : FloodState} (hσ : σ.stack = []) :
    floodStep w h bg offs σ = σ := by
  obtain ⟨d, v, s⟩ := σ
  cases s with
  | nil => rfl
  | cons p rest => exact absurd hσ (by simp)

theorem floodRun_succ (w h : ℕ) (bg : ℕ → ℕ → ℕ → Bool) (offs : List (ℤ × ℤ))
    (n : ℕ) (σ : FloodState) :
    floodRun w h bg offs (n + 1) σ = floodRun w h bg offs n (floodStep w h bg offs σ) :=
  rfl

theorem floodRun_stack_nil {w h : ℕ} {bg : ℕ → ℕ → ℕ → Bool}
    {offs : List (ℤ × ℤ)} {σ : FloodState} (hσ : σ.stack = []) :
    ∀ n, floodRun w h bg offs n σ = σ
  | 0 => rfl
  | n + 1 => by
      rw [floodRun_succ, floodStep_stack_nil hσ]
      exact floodRun_stack_nil hσ n

/-- Work left for the loop: five units per unvisited pixel plus one per
stack entry; every iteration with a nonempty stack strictly decreases it. -/
def floodMeasure (w h : ℕ) (σ : FloodState) : ℕ :=
  5 * (grid w h \ σ.visited).card + σ.stack.length

theorem floodStep_not_skipped {w h : ℕ} {p : ℤ × ℤ} {v : Finset (ℤ × ℤ)}
    (hC : ¬(p.1 < 0 ∨ (w : ℤ) ≤ p.1 ∨ p.2 < 0 ∨ (h : ℤ) ≤ p.2 ∨ p ∈ v)) :
    p ∈ grid w h ∧ p ∉ v := by
  push_neg at hC
  obtain ⟨h1, h2, h3, h4, h5⟩ := hC
  exact ⟨mem_grid.mpr ⟨by omega, by omega, by omega, by omega⟩, h5⟩

theorem card_sdiff_insert_lt {w h : ℕ} {p : ℤ × ℤ} {v : Finset (ℤ × ℤ)}
    (hp : p ∈ grid w h) (hnv : p ∉ v) :
    (grid w h \ insert p v).card + 1 = (grid w h \ v).card := by
  rw [Finset.sdiff_insert]
  have hmem : p ∈ grid w h \ v := Finset.mem_sdiff.mpr ⟨hp, hnv⟩
  have hpos : 0 < (grid w h \ v).card := Finset.card_pos.mpr ⟨p, hmem⟩
  rw [Finset.card_erase_of_mem hmem]
  omega

theorem floodStep_measure_lt {w h : ℕ} {bg : ℕ → ℕ → ℕ → Bool}
    {offs : List (ℤ × ℤ)} {σ : FloodState} (hoffs : offs.length ≤ 4)
    (hne : σ.stack ≠ []) :
    floodMeasure w h (floodStep w h bg offs σ) < floodMeasure w h σ := by
  obtain ⟨d, v, s⟩ := σ
  cases s with
  | nil => exact absurd rfl hne
  | cons p rest =>
    show floodMeasure w h (floodStep w h bg offs ⟨d, v, p :: rest⟩) < _
    simp only [floodStep]
    by_cases hC : p.1 < 0 ∨ (w : ℤ) ≤ p.1 ∨ p.2 < 0 ∨ (h : ℤ) ≤ p.2 ∨ p ∈ v
    · rw [if_pos hC]
      unfold floodMeasure
      simp only [List.length_cons]
      omega
    · rw [if_neg hC]
      obtain ⟨hp, hnv⟩ := floodStep_not_skipped hC
      have hcard := card_sdiff_insert_lt hp hnv
      by_cases hbg : bg (d.getD (offOf w p * 4) 0) (d.getD (offOf w p * 4 + 1) 0)
          (d.getD (offOf w p * 4 + 2) 0) = true
      · rw [if_pos hbg]
        unfold floodMeasure
        simp only [List.length_append, List.length_map, List.length_cons]
        omega
      · rw [if_neg hbg]
        unfold floodMeasure
        simp only [List.length_cons]
        omega

theorem floodRun_stack_empty {w h : ℕ} {bg : ℕ → ℕ → ℕ → Bool}
    {offs : List (ℤ × ℤ)} (hoffs : offs.length ≤ 4) :
    ∀ (n : ℕ) (σ : FloodState), floodMeasure w h σ ≤ n →
      (floodRun w h bg offs n σ).stack = []
  | 0, σ, hμ => by
      have : σ.stack.length = 0 := by
        unfold floodMeasure at hμ
        omega
      show σ.stack = []
      cases hσ : σ.stack with
      | nil => rfl
      | cons a l => rw [hσ] at this; simp at this
  | n + 1, σ, hμ => by
      by_cases hσ : σ.stack = []
      · rw [floodRun_stack_nil hσ]
        exact hσ
      · rw [floodRun_succ]
        exact floodRun_stack_empty hoffs n _
          (by
            have := @floodStep_measure_lt w h bg offs σ hoffs hσ
            omega)

theorem getD_set_self_zero (l : List ℕ) (i : ℕ) : (l.set i 0).getD i 0 = 0 := by
  rcases lt_or_le i l.length with hlt | hle
  · exact getD_set_self 0 0 l i hlt
  · rw [List.set_eq_of_length_le hle]
    exact List.getD_eq_default l 0 hle

/-! ## Flood-fill loop: the invariant -/

/-- Invariant of the flood-fill loop, relating a loop state to the original
buffer `data₀`: visited coordinates are in bounds; the buffer differs from
`data₀` exactly by cleared alpha bytes of visited background pixels; every
stack entry is a seed or a neighbor of a cleared pixel; every cleared pixel
is reachable from a seed; and every seed and every neighbor of a cleared
pixel is either already visited or still on the stack. -/
structure FloodInv (w h : ℕ) (bg : ℕ → ℕ → ℕ → Bool) (seeds : List (ℤ × ℤ))
    (data₀ : List ℕ) (σ : FloodState) : Prop where
  visSub : ∀ p ∈ σ.visited, p ∈ grid w h
  lenEq : σ.data.length = data₀.length
  clearedZero : ∀ p ∈ σ.visited, bgAt bg w data₀ p →
    σ.data.getD (offOf w p * 4 + 3) 0 = 0
  untouched : ∀ j : ℕ,
    (∀ p ∈ σ.visited, bgAt bg w data₀ p → j ≠ offOf w p * 4 + 3) →
    σ.data.getD j 0 = data₀.getD j 0
  stackProv : ∀ p ∈ σ.stack, p ∈ seeds ∨
    ∃ q ∈ σ.visited, bgAt bg w data₀ q ∧ adj q p
  visReach : ∀ p ∈ σ.visited, bgAt bg w data₀ p →
    ReachesFrom seeds w h bg data₀ p
  seedsCov : ∀ s ∈ seeds, s ∈ grid w h → s ∈ σ.visited ∨ s ∈ σ.stack
  succCov : ∀ q ∈ σ.visited, bgAt bg w data₀ q → ∀ d ∈ nbrOffs,
    (q.1 + d.1, q.2 + d.2) ∈ grid w h →
    (q.1 + d.1, q.2 + d.2) ∈ σ.visited ∨ (q.1 + d.1, q.2 + d.2) ∈ σ.stack

theorem floodInv_init (w h : ℕ) (bg : ℕ → ℕ → ℕ → Bool)
    (seeds : List (ℤ × ℤ)) (data₀ : List ℕ) :
    FloodInv w h bg seeds data₀ ⟨data₀, ∅, seeds⟩ := by
  refine ⟨?_, rfl, ?_, ?_, ?_, ?_, ?_, ?_⟩
  · intro p hp
    exact absurd hp (Finset.not_mem_empty p)
  · intro p hp _
    exact absurd hp (Finset.not_mem_empty p)
  · intro j _
    rfl
  · intro p hp
    exact Or.inl hp
  · intro p hp _
    exact absurd hp (Finset.not_mem_empty p)
  · intro s hs _
    exact Or.inr hs
  · intro q hq
    exact absurd hq (Finset.not_mem_empty q)

theorem floodInv_step {w h : ℕ} {bg : ℕ → ℕ → ℕ → Bool}
    {offs seeds : List (ℤ × ℤ)} {data₀ : List ℕ} {σ : FloodState}
    (hmem : ∀ dd : ℤ × ℤ, dd ∈ offs ↔ dd ∈ nbrOffs)
    (hInv : FloodInv w h bg seeds data₀ σ) :
    FloodInv w h bg seeds data₀ (floodStep w h bg offs σ) := by
  obtain ⟨dat, vis, s⟩ := σ
  cases s with
  | nil => exact hInv
  | cons p rest =>
    simp only [floodStep]
    by_cases hC : p.1 < 0 ∨ (w : ℤ) ≤ p.1 ∨ p.2 < 0 ∨ (h : ℤ) ≤ p.2 ∨ p ∈ vis
    · rw [if_pos hC]
      refine ⟨hInv.visSub, hInv.lenEq, hInv.clearedZero, hInv.untouched, ?_,
        hInv.visReach, ?_, ?_⟩
      · intro x hx
        exact hInv.stackProv x (List.mem_cons_of_mem _ hx)
      · intro t ht htg
        rcases hInv.seedsCov t ht htg with hv | hst
        · exact Or.inl hv
        · rcases List.mem_cons.mp hst with rfl | h'
          · rw [mem_grid] at htg
            rcases hC with h1 | h1 | h1 | h1 | h1
            · exact absurd h1 (by omega)
            · exact absurd h1 (by omega)
            · exact absurd h1 (by omega)
            · exact absurd h1 (by omega)
            · exact Or.inl h1
          · exact Or.inr h'
      · intro q hq hbq dd hdd hgrid'
        rcases hInv.succCov q hq hbq dd hdd hgrid' with hv | hst
        · exact Or.inl hv
        · rcases List.mem_cons.mp hst with heq | h'
          · rw [heq] at hgrid'
            rw [mem_grid] at hgrid'
            rcases hC with h1 | h1 | h1 | h1 | h1
            · exact absurd h1 (by omega)
            · exact absurd h1 (by omega)
            · exact absurd h1 (by omega)
            · exact absurd h1 (by omega)
            · exact Or.inl (by rw [heq]; exact h1)
          · exact Or.inr h'
    · rw [if_neg hC]
      obtain ⟨hpg, hpnv⟩ := floodStep_not_skipped hC
      have hr0 : dat.getD (offOf w p * 4) 0 = data₀.getD (offOf w p * 4) 0 :=
        hInv.untouched _ (fun q _ _ => by omega)
      have hr1 : dat.getD (offOf w p * 4 + 1) 0 = data₀.getD (offOf w p * 4 + 1) 0 :=
        hInv.untouched _ (fun q _ _ => by omega)
      have hr2 : dat.getD (offOf w p * 4 + 2) 0 = data₀.getD (offOf w p * 4 + 2) 0 :=
        hInv.untouched _ (fun q _ _ => by omega)
      by_cases hbg : bg (dat.getD (offOf w p * 4) 0) (dat.getD (offOf w p * 4 + 1) 0)
          (dat.getD (offOf w p * 4 + 2) 0) = true
      · rw [if_pos hbg]
        have hbgAt : bgAt bg w data₀ p := by
          unfold bgAt
          rw [← hr0, ← hr1, ← hr2]
          exact hbg
        have hreach : ReachesFrom seeds w h bg data₀ p := by
          rcases hInv.stackProv p (List.mem_cons_self p rest) with hseed |
            ⟨q, hqv, hqbg, hqadj⟩
          · exact ⟨p, hseed, hpg, hbgAt, Relation.ReflTransGen.refl⟩
          · obtain ⟨s0, hs0, hs0g, hs0bg, hpath⟩ := hInv.visReach q hqv hqbg
            exact ⟨s0, hs0, hs0g, hs0bg, hpath.tail ⟨hqadj, hpg, hbgAt⟩⟩
        refine ⟨?_, ?_, ?_, ?_, ?_, ?_, ?_, ?_⟩
        · intro x hx
          rcases Finset.mem_insert.mp hx with rfl | hx'
          · exact hpg
          · exact hInv.visSub x hx'
        · rw [List.length_set]
          exact hInv.lenEq
        · intro x hx hbx
          rcases Finset.mem_insert.mp hx with rfl | hx'
          · exact getD_set_self_zero dat _
          · exact getD_set_zero 0 dat _ _ (hInv.clearedZero x hx' hbx)
        · intro j hj
          have hjp : j ≠ offOf w p * 4 + 3 :=
            hj p (Finset.mem_insert_self p vis) hbgAt
          rw [getD_set_ne 0 0 dat _ j (fun hh => hjp hh.symm)]
          exact hInv.untouched j
            (fun q hq hbq => hj q (Finset.mem_insert_of_mem hq) hbq)
        · intro x hx
          rcases List.mem_append.mp hx with hmap | hrest
          · obtain ⟨dd, hdd, rfl⟩ := List.mem_map.mp hmap
            refine Or.inr ⟨p, Finset.mem_insert_self p vis, hbgAt, ?_⟩
            unfold adj
            simpa using (hmem dd).mp hdd
          · rcases hInv.stackProv x (List.mem_cons_of_mem _ hrest) with hs |
              ⟨q, hqv, hqbg, hqadj⟩
            · exact Or.inl hs
            · exact Or.inr ⟨q, Finset.mem_insert_of_mem hqv, hqbg, hqadj⟩
        · intro x hx hbx
          rcases Finset.mem_insert.mp hx with rfl | hx'
          · exact hreach
          · exact hInv.visReach x hx' hbx
        · intro t ht htg
          rcases hInv.seedsCov t ht htg with hv | hst
          · exact Or.inl (Finset.mem_insert_of_mem hv)
          · rcases List.mem_cons.mp hst with rfl | h'
            · exact Or.inl (Finset.mem_insert_self t vis)
            · exact Or.inr (List.mem_append_right _ h')
        · intro q hq hbq dd hdd hgrid'
          rcases Finset.mem_insert.mp hq with rfl | hq'
          · exact Or.inr (List.mem_append_left _
              (List.mem_map.mpr ⟨dd, (hmem dd).mpr hdd, rfl⟩))
          · rcases hInv.succCov q hq' hbq dd hdd hgrid' with hv | hst
            · exact Or.inl (Finset.mem_insert_of_mem hv)
            · rcases List.mem_cons.mp hst with heq | h'
              · exact Or.inl (by rw [heq]; exact Finset.mem_insert_self p vis)
              · exact Or.inr (List.mem_append_right _ h')
      · rw [if_neg hbg]
        have hnbgAt : ¬bgAt bg w data₀ p := by
          unfold bgAt
          rw [← hr0, ← hr1, ← hr2]
          exact hbg
        refine ⟨?_, hInv.lenEq, ?_, ?_, ?_, ?_, ?_, ?_⟩
        · intro x hx
          rcases Finset.mem_insert.mp hx with rfl | hx'
          · exact hpg
          · exact hInv.visSub x hx'
        · intro x hx hbx
          rcases Finset.mem_insert.mp hx with rfl | hx'
          · exact absurd hbx hnbgAt
          · exact hInv.clearedZero x hx' hbx
        · intro j hj
          exact hInv.untouched j
            (fun q hq hbq => hj q (Finset.mem_insert_of_mem hq) hbq)
        · intro x hx
          rcases hInv.stackProv x (List.mem_cons_of_mem _ hx) with hs |
            ⟨q, hqv, hqbg, hqadj⟩
          · exact Or.inl hs
          · exact Or.inr ⟨q, Finset.mem_insert_of_mem hqv, hqbg, hqadj⟩
        · intro x hx hbx
          rcases Finset.mem_insert.mp hx with rfl | hx'
          · exact absurd hbx hnbgAt
          · exact hInv.visReach x hx' hbx
        · intro t ht htg
          rcases hInv.seedsCov t ht htg with hv | hst
          · exact Or.inl (Finset.mem_insert_of_mem hv)
          · rcases List.mem_cons.mp hst with rfl | h'
            · exact Or.inl (Finset.mem_insert_self t vis)
            · exact Or.inr h'
        · intro q hq hbq dd hdd hgrid'
          rcases Finset.mem_insert.mp hq with rfl | hq'
          · exact absurd hbq hnbgAt
          · rcases hInv.succCov q hq' hbq dd hdd hgrid' with hv | hst
            · exact Or.inl (Finset.mem_insert_of_mem hv)
            · rcases List.mem_cons.mp hst with heq | h'
              · exact Or.inl (by rw [heq]; exact Finset.mem_insert_self p vis)
              · exact Or.inr h'

theorem floodInv_run {w h : ℕ} {bg : ℕ → ℕ → ℕ → Bool}
    {offs seeds : List (ℤ × ℤ)} {data₀ : List ℕ}
    (hmem : ∀ dd : ℤ × ℤ, dd ∈ offs ↔ dd ∈ nbrOffs) :
    ∀ (n : ℕ) (σ : FloodState), FloodInv w h bg seeds data₀ σ →
      FloodInv w h bg seeds data₀ (floodRun w h bg offs n σ)
  | 0, _, hInv => hInv
  | n + 1, σ, hInv =>
      floodInv_run hmem n (floodStep w h bg offs σ) (floodInv_step hmem hInv)

theorem flood_reach_mem {w h : ℕ} {bg : ℕ → ℕ → ℕ → Bool}
    {seeds : List (ℤ × ℤ)} {data₀ : List ℕ} {σ : FloodState}
    (hInv : FloodInv w h bg seeds data₀ σ) (hstk : σ.stack = [])
    {p : ℤ × ℤ} (hreach : ReachesFrom seeds w h bg data₀ p) :
    p ∈ σ.visited ∧ bgAt bg w data₀ p := by
  obtain ⟨s, hs, hsg, hsbg, hrtg⟩ := hreach
  induction hrtg with
  | refl =>
      refine ⟨?_, hsbg⟩
      rcases hInv.seedsCov s hs hsg with hv | hst
      · exact hv
      · rw [hstk] at hst
        exact absurd hst (List.not_mem_nil s)
  | @tail b c hab hbc ih =>
      obtain ⟨hbv, hbbg⟩ := ih
      have hd : (c.1 - b.1, c.2 - b.2) ∈ nbrOffs := hbc.1
      have hc_eq : (b.1 + (c.1 - b.1), b.2 + (c.2 - b.2)) = c := by
        refine Prod.ext ?_ ?_ <;> simp
      have hsucc := hInv.succCov b hbv hbbg _ hd (by rw [hc_eq]; exact hbc.2.1)
      rw [hc_eq] at hsucc
      rcases hsucc with hv | hst
      · exact ⟨hv, hbc.2.2⟩
      · rw [hstk] at hst
        exact absurd hst (List.not_mem_nil c)

theorem flood_final {w h : ℕ} {bg : ℕ → ℕ → ℕ → Bool}
    {offs seeds : List (ℤ × ℤ)} {data₀ : List ℕ}
    (hmem : ∀ dd : ℤ × ℤ, dd ∈ offs ↔ dd ∈ nbrOffs) (hoffs : offs.length ≤ 4) :
    FloodInv w h bg seeds data₀
        (floodRun w h bg offs (floodFuel w h seeds) ⟨data₀, ∅, seeds⟩) ∧
      (floodRun w h bg offs (floodFuel w h seeds) ⟨data₀, ∅, seeds⟩).stack = [] := by
  constructor
  · exact floodInv_run hmem _ _ (floodInv_init w h bg seeds data₀)
  · apply floodRun_stack_empty hoffs
    unfold floodMeasure floodFuel
    simp [grid_card]

theorem floodFill_alpha_cleared {w h : ℕ} {bg : ℕ → ℕ → ℕ → Bool}
    {offs seeds : List (ℤ × ℤ)} {data₀ : List ℕ}
    (hmem : ∀ dd : ℤ × ℤ, dd ∈ offs ↔ dd ∈ nbrOffs) (hoffs : offs.length ≤ 4)
    {p : ℤ × ℤ} (hbg : bgAt bg w data₀ p)
    (hreach : ReachesFrom seeds w h bg data₀ p) :
    (floodRun w h bg offs (floodFuel w h seeds) ⟨data₀, ∅, seeds⟩).data.getD
      (offOf w p * 4 + 3) 0 = 0 := by
  obtain ⟨hInv, hstk⟩ := @flood_final w h bg offs seeds data₀ hmem hoffs
  exact hInv.clearedZero p (flood_reach_mem hInv hstk hreach).1 hbg

theorem floodFill_alpha_kept {w h : ℕ} {bg : ℕ → ℕ → ℕ → Bool}
    {offs seeds : List (ℤ × ℤ)} {data₀ : List ℕ}
    (hmem : ∀ dd : ℤ × ℤ, dd ∈ offs ↔ dd ∈ nbrOffs) (hoffs : offs.length ≤ 4)
    {p : ℤ × ℤ} (hp : p ∈ grid w h)
    (hn : ¬(bgAt bg w data₀ p ∧ ReachesFrom seeds w h bg data₀ p)) :
    (floodRun w h bg offs (floodFuel w h seeds) ⟨data₀, ∅, seeds⟩).data.getD
      (offOf w p * 4 + 3) 0 = data₀.getD (offOf w p * 4 + 3) 0 := by
  obtain ⟨hInv, hstk⟩ := @flood_final w h bg offs seeds data₀ hmem hoffs
  apply hInv.untouched
  intro q hq hbq hjq
  have hoff : offOf w p = offOf w q := by omega
  have hqp : q = p := offOf_inj (hInv.visSub q hq) hp hoff.symm
  subst hqp
  exact hn ⟨hbq, hInv.visReach q hq hbq⟩

theorem floodFill_rgb_kept {w h : ℕ} {bg : ℕ → ℕ → ℕ → Bool}
    {offs seeds : List (ℤ × ℤ)} {data₀ : List ℕ}
    (hmem : ∀ dd : ℤ × ℤ, dd ∈ offs ↔ dd ∈ nbrOffs) (hoffs : offs.length ≤ 4)
    (j : ℕ) (hj : j % 4 ≠ 3) :
    (floodRun w h bg offs (floodFuel w h seeds) ⟨data₀, ∅, seeds⟩).data.getD
      j 0 = data₀.getD j 0 := by
  obtain ⟨hInv, _⟩ := @flood_final w h bg offs seeds data₀ hmem hoffs
  apply hInv.untouched
  intro q hq hbq hjq
  omega

theorem floodFill_alpha_beyond {w h : ℕ} {bg : ℕ → ℕ → ℕ → Bool}
    {offs seeds : List (ℤ × ℤ)} {data₀ : List ℕ}
    (hmem : ∀ dd : ℤ × ℤ, dd ∈ offs ↔ dd ∈ nbrOffs) (hoffs : offs.length ≤ 4)
    (k : ℕ) (hk : w * h ≤ k) :
    (floodRun w h bg offs (floodFuel w h seeds) ⟨data₀, ∅, seeds⟩).data.getD
      (k * 4 + 3) 0 = data₀.getD (k * 4 + 3) 0 := by
  obtain ⟨hInv, _⟩ := @flood_final w h bg offs seeds data₀ hmem hoffs
  apply hInv.untouched
  intro q hq hbq hjq
  have := offOf_lt (hInv.visSub q hq)
  omega

theorem floodFill_length {w h : ℕ} {bg : ℕ → ℕ → ℕ → Bool}
    {offs seeds : List (ℤ × ℤ)} {data₀ : List ℕ}
    (hmem : ∀ dd : ℤ × ℤ, dd ∈ offs ↔ dd ∈ nbrOffs) (hoffs : offs.length ≤ 4) :
    (floodRun w h bg offs (floodFuel w h seeds) ⟨data₀, ∅, seeds⟩).data.length =
      data₀.length :=
  (@flood_final w h bg offs seeds data₀ hmem hoffs).1.lenEq

theorem removeBgFloodFillWith_eq (offs seeds : List (ℤ × ℤ)) (data : List ℕ)
    (w h : ℕ) (hex : String) (tol : ℚ) :
    removeBgFloodFillWith offs seeds data w h hex tol =
      (floodRun w h (floodBgOf hex tol) offs (floodFuel w h seeds)
        ⟨data, ∅, seeds⟩).data :=
  rfl

theorem nbrOffs_self_mem : ∀ dd : ℤ × ℤ, dd ∈ nbrOffs ↔ dd ∈ nbrOffs :=
  fun _ => Iff.rfl

theorem nbrOffs_len_le : nbrOffs.length ≤ 4 := by
  simp [nbrOffs]

/-! ## Erosion lemmas -/

theorem foldl_set_getD (f : List ℕ → ℕ → List ℕ)
    (hf : ∀ (d : List ℕ) (idx : ℕ), f d idx = d ∨ f d idx = d.set (idx * 4 + 3) 0) :
    ∀ (coords : List ℕ) (d : List ℕ) (j : ℕ),
      (∀ idx ∈ coords, j ≠ idx * 4 + 3) →
      (coords.foldl f d).getD j 0 = d.getD j 0
  | [], _, _, _ => rfl
  | idx :: rest, d, j, hj => by
      rw [List.foldl_cons,
        foldl_set_getD f hf rest (f d idx) j
          (fun i hi => hj i (List.mem_cons_of_mem _ hi))]
      rcases hf d idx with he | he
      · rw [he]
      · rw [he, getD_set_ne 0 0 d _ j
          (fun hh => (hj idx (List.mem_cons_self _ _)) hh.symm)]

theorem foldl_set_length (f : List ℕ → ℕ → List ℕ)
    (hf : ∀ (d : List ℕ) (idx : ℕ), f d idx = d ∨ f d idx = d.set (idx * 4 + 3) 0) :
    ∀ (coords : List ℕ) (d : List ℕ),
      (coords.foldl f d).length = d.length
  | [], _ => rfl
  | idx :: rest, d => by
      rw [List.foldl_cons, foldl_set_length f hf rest (f d idx)]
      rcases hf d idx with he | he
      · rw [he]
      · rw [he, List.length_set]

theorem mem_erodeCoords {w h idx : ℕ} :
    idx ∈ erodeCoords w h ↔
      ∃ x y : ℕ, 1 ≤ x ∧ x + 1 < w ∧ 1 ≤ y ∧ y + 1 < h ∧ idx = y * w + x := by
  unfold erodeCoords
  simp only [List.mem_flatMap, List.mem_map, List.mem_filter, List.mem_range,
    decide_eq_true_eq]
  constructor
  · rintro ⟨y, ⟨hy1, hy2⟩, x, ⟨hx1, hx2⟩, rfl⟩
    exact ⟨x, y, hx2.1, hx2.2, hy2.1, hy2.2, rfl⟩
  · rintro ⟨x, y, hx1, hx2, hy1, hy2, rfl⟩
    exact ⟨y, ⟨by omega, hy1, hy2⟩, x, ⟨by omega, hx1, hx2⟩, rfl⟩

theorem erodeOnce_body_cases (w : ℕ) (data : List ℕ) :
    ∀ (d : List ℕ) (idx : ℕ),
      (fun (d : List ℕ) (idx : ℕ) =>
        if data.getD (idx * 4 + 3) 0 ≠ 0 ∧ (data.getD ((idx - 1) * 4 + 3) 0 = 0 ∨
            data.getD ((idx + 1) * 4 + 3) 0 = 0 ∨
            data.getD ((idx - w) * 4 + 3) 0 = 0 ∨
            data.getD ((idx + w) * 4 + 3) 0 = 0) then
          d.set (idx * 4 + 3) 0
        else d) d idx = d ∨
      (fun (d : List ℕ) (idx : ℕ) =>
        if data.getD (idx * 4 + 3) 0 ≠ 0 ∧ (data.getD ((idx - 1) * 4 + 3) 0 = 0 ∨
            data.getD ((idx + 1) * 4 + 3) 0 = 0 ∨
            data.getD ((idx - w) * 4 + 3) 0 = 0 ∨
            data.getD ((idx + w) * 4 + 3) 0 = 0) then
          d.set (idx * 4 + 3) 0
        else d) d idx = d.set (idx * 4 + 3) 0 := by
  intro d idx
  dsimp only
  split
  · exact Or.inr rfl
  · exact Or.inl rfl

theorem erodeOnce_getD (w h : ℕ) (data : List ℕ) (j : ℕ)
    (hj : ∀ idx ∈ erodeCoords w h, j ≠ idx * 4 + 3) :
    (erodeOnce w h data).getD j 0 = data.getD j 0 := by
  unfold erodeOnce
  exact foldl_set_getD _ (erodeOnce_body_cases w data) (erodeCoords w h) data j hj

theorem erodeOnce_length (w h : ℕ) (data : List ℕ) :
    (erodeOnce w h data).length = data.length := by
  unfold erodeOnce
  exact foldl_set_length _ (erodeOnce_body_cases w data) (erodeCoords w h) data

theorem erode_iter_getD (w h : ℕ) (j : ℕ)
    (hj : ∀ idx ∈ erodeCoords w h, j ≠ idx * 4 + 3) :
    ∀ (n : ℕ) (data : List ℕ),
      ((erodeOnce w h)^[n] data).getD j 0 = data.getD j 0
  | 0, _ => rfl
  | n + 1, data => by
      rw [Function.iterate_succ_apply, erode_iter_getD w h j hj n _,
        erodeOnce_getD w h data j hj]

theorem erode_iter_length (w h : ℕ) :
    ∀ (n : ℕ) (data : List ℕ), ((erodeOnce w h)^[n] data).length = data.length
  | 0, _ => rfl
  | n + 1, data => by
      rw [Function.iterate_succ_apply, erode_iter_length w h n _,
        erodeOnce_length w h data]

theorem rowMajor_inj {w x x' y y' : ℕ} (hx : x < w) (hx' : x' < w)
    (he : y * w + x = y' * w + x') : x = x' ∧ y = y' := by
  have h1 : (x + y * w) % w = x := by
    rw [Nat.add_mul_mod_self_right]
    exact Nat.mod_eq_of_lt hx
  have h2 : (x' + y' * w) % w = x' := by
    rw [Nat.add_mul_mod_self_right]
    exact Nat.mod_eq_of_lt hx'
  have hxx : x = x' := by
    rw [← h1, ← h2]
    congr 1
    omega
  refine ⟨hxx, ?_⟩
  have hw : 0 < w := by omega
  have : y * w = y' * w := by omega
  exact Nat.eq_of_mul_eq_mul_right hw this

theorem applyErosion_nonpos {data : List ℕ} {w h : ℕ} {s : ℤ} (hs : s ≤ 0) :
    applyErosion data w h s = data := by
  unfold applyErosion
  rw [if_pos hs]

theorem applyErosion_getD_untouched (data : List ℕ) (w h : ℕ) (s : ℤ) (j : ℕ)
    (hj : ∀ idx ∈ erodeCoords w h, j ≠ idx * 4 + 3) :
    (applyErosion data w h s).getD j 0 = data.getD j 0 := by
  unfold applyErosion
  split
  · rfl
  · exact erode_iter_getD w h j hj _ data

theorem applyErosion_length (data : List ℕ) (w h : ℕ) (s : ℤ) :
    (applyErosion data w h s).length = data.length := by
  unfold applyErosion
  split
  · rfl
  · exact erode_iter_length w h _ data

theorem applyErosion_one_by_one (data : List ℕ) (s : ℤ) :
    applyErosion data 1 1 s = data := by
  unfold applyErosion
  split
  · rfl
  · exact Function.iterate_fixed rfl _

/-! ## Unfolding lemmas for the feathered pass and the pipeline -/

theorem removeBgFeathered_green (data : List ℕ) (hex : String) (tol sm : ℚ)
    (hhex : jsToLower hex = "#00ff00") :
    removeBgFeathered data hex tol sm =
      feaAlpha greenSim ((tol : ℝ) / 100)
        (max 0 ((tol : ℝ) / 100 - (sm : ℝ) / 100))
        ((tol : ℝ) / 100 - max 0 ((tol : ℝ) / 100 - (sm : ℝ) / 100)) data := by
  unfold removeBgFeathered
  rw [if_pos hhex]

theorem removeBgFeathered_nonGreen (data : List ℕ) (hex : String) (tol sm : ℚ)
    (hhex : jsToLower hex ≠ "#00ff00") :
    removeBgFeathered data hex tol sm =
      feaAlpha
        (rgbSim ((hexToRgb hex).getD ⟨0, 0, 0⟩).r ((hexToRgb hex).getD ⟨0, 0, 0⟩).g
          ((hexToRgb hex).getD ⟨0, 0, 0⟩).b)
        ((tol : ℝ) / 100) (max 0 ((tol : ℝ) / 100 - (sm : ℝ) / 100))
        ((tol : ℝ) / 100 - max 0 ((tol : ℝ) / 100 - (sm : ℝ) / 100)) data := by
  unfold removeBgFeathered
  rw [if_neg hhex]

theorem runPipeline_flood (req : Request) (hmode : req.removalMode = "flood") :
    runPipeline req =
      applyErosion
        (removeBgFloodFill req.rawImageData req.width req.height
          req.targetColorHex req.colorTolerance)
        req.width req.height req.erodeStrength := by
  unfold runPipeline
  rw [if_pos hmode]

theorem runPipeline_global (req : Request) (hmode : req.removalMode ≠ "flood") :
    runPipeline req =
      applyErosion
        (removeBgFeathered req.rawImageData req.targetColorHex
          req.colorTolerance req.smoothness)
        req.width req.height req.erodeStrength := by
  unfold runPipeline
  rw [if_neg hmode]

/-! ## More flood and feathered helpers -/

theorem floodRun_add (w h : ℕ) (bg : ℕ → ℕ → ℕ → Bool) (offs : List (ℤ × ℤ)) :
    ∀ (m n : ℕ) (σ : FloodState),
      floodRun w h bg offs (m + n) σ =
        floodRun w h bg offs n (floodRun w h bg offs m σ)
  | 0, n, σ => by rw [Nat.zero_add]; rfl
  | m + 1, n, σ => by
      have : m + 1 + n = (m + n) + 1 := by omega
      rw [this, floodRun_succ, floodRun_succ]
      exact floodRun_add w h bg offs m n (floodStep w h bg offs σ)

theorem floodBgOf_green (hex : String) (tol : ℚ)
    (hhex : jsToLower hex = "#00ff00") :
    floodBgOf hex tol = isBgGreenFlood tol := by
  unfold floodBgOf
  rw [if_pos hhex]

theorem floodBgOf_nonGreen (hex : String) (tol : ℚ)
    (hhex : jsToLower hex ≠ "#00ff00") :
    floodBgOf hex tol =
      isBgRgbFlood ((hexToRgb hex).getD ⟨0, 0, 0⟩).r
        ((hexToRgb hex).getD ⟨0, 0, 0⟩).g ((hexToRgb hex).getD ⟨0, 0, 0⟩).b tol := by
  unfold floodBgOf
  rw [if_neg hhex]

theorem greenSim_eq (r g b : ℕ) :
    greenSim r g b = 1 - (|(g : ℝ) - 255| * 0.5 + ((r : ℝ) + (b : ℝ))) / 442 := by
  unfold greenSim
  rw [sub_zero, sub_zero,
    show |(r : ℝ)| = (r : ℝ) from abs_of_nonneg (Nat.cast_nonneg r),
    show |(b : ℝ)| = (b : ℝ) from abs_of_nonneg (Nat.cast_nonneg b)]

theorem rgbSim_eq (tr tg tb r g b : ℕ) :
    rgbSim tr tg tb r g b =
      1 - Real.sqrt (((r : ℝ) - tr) ^ 2 + ((g : ℝ) - tg) ^ 2 + ((b : ℝ) - tb) ^ 2)
        / 442 := by
  unfold rgbSim
  have hS : ((r : ℝ) - tr) * ((r : ℝ) - tr) + ((g : ℝ) - tg) * ((g : ℝ) - tg) +
      ((b : ℝ) - tb) * ((b : ℝ) - tb) =
      ((r : ℝ) - tr) ^ 2 + ((g : ℝ) - tg) ^ 2 + ((b : ℝ) - tb) ^ 2 := by ring
  rw [hS]
  have hnn : (0 : ℝ) ≤ ((r : ℝ) - tr) ^ 2 + ((g : ℝ) - tg) ^ 2 + ((b : ℝ) - tb) ^ 2 := by
    positivity
  rw [show ((442 : ℝ) * 442) = 442 ^ 2 by norm_num, Real.sqrt_div hnn,
    Real.sqrt_sq (by norm_num : (0 : ℝ) ≤ 442)]

theorem removeBgFeathered_length (data : List ℕ) (hex : String) (tol sm : ℚ) :
    (removeBgFeathered data hex tol sm).length = data.length := by
  by_cases hhex : jsToLower hex = "#00ff00"
  · rw [removeBgFeathered_green data hex tol sm hhex]
    exact feaAlpha_length _ _ _ _ data
  · rw [removeBgFeathered_nonGreen data hex tol sm hhex]
    exact feaAlpha_length _ _ _ _ data

theorem removeBgFloodFill_length (data : List ℕ) (w h : ℕ) (hex : String)
    (tol : ℚ) : (removeBgFloodFill data w h hex tol).length = data.length := by
  unfold removeBgFloodFill
  rw [removeBgFloodFillWith_eq]
  exact floodFill_length nbrOffs_self_mem nbrOffs_len_le

/-- If no seed passes the background test, the flood fill leaves the buffer
untouched (nothing is ever cleared). -/
theorem floodFill_id_of_no_bg_seed {w h : ℕ} {bg : ℕ → ℕ → ℕ → Bool}
    {offs seeds : List (ℤ × ℤ)} {data₀ : List ℕ}
    (hmem : ∀ dd : ℤ × ℤ, dd ∈ offs ↔ dd ∈ nbrOffs) (hoffs : offs.length ≤ 4)
    (hseed : ∀ s ∈ seeds, s ∈ grid w h → ¬bgAt bg w data₀ s) :
    (floodRun w h bg offs (floodFuel w h seeds) ⟨data₀, ∅, seeds⟩).data = data₀ := by
  have hnreach : ∀ p : ℤ × ℤ, ¬ReachesFrom seeds w h bg data₀ p := by
    rintro p ⟨s, hs, hsg, hsbg, _⟩
    exact hseed s hs hsg hsbg
  apply List.ext_getElem (floodFill_length hmem hoffs)
  intro i h1 h2
  rw [← List.getD_eq_getElem _ 0 h1, ← List.getD_eq_getElem _ 0 h2]
  by_cases hi3 : i % 4 = 3
  · obtain ⟨k, rfl⟩ : ∃ k, i = k * 4 + 3 := ⟨i / 4, by omega⟩
    by_cases hk : k < w * h
    · obtain ⟨p, hp, hoffp⟩ := offOf_surj hk
      rw [← hoffp]
      exact floodFill_alpha_kept hmem hoffs hp (fun hc => hnreach p hc.2)
    · exact floodFill_alpha_beyond hmem hoffs k (by omega)
  · exact floodFill_rgb_kept hmem hoffs i hi3

/-! ## Example buffers -/

/-- One opaque pure-red pixel. -/
def pxRed : List ℕ := [255, 0, 0, 255]

/-- One opaque pure-green pixel. -/
def pxGreen : List ℕ := [0, 255, 0, 255]

/-- A 3x3 image, all red except a green pixel at (1,0): the green region
touches the top border but no corner. -/
def img3 : List ℕ :=
  pxRed ++ pxGreen ++ pxRed ++ pxRed ++ pxRed ++ pxRed ++ pxRed ++ pxRed ++ pxRed

/-- A 4x4 image: red border ring, green 2x2 center. -/
def img4 : List ℕ :=
  pxRed ++ pxRed ++ pxRed ++ pxRed ++
  pxRed ++ pxGreen ++ pxGreen ++ pxRed ++
  pxRed ++ pxGreen ++ pxGreen ++ pxRed ++
  pxRed ++ pxRed ++ pxRed ++ pxRed

/-- A 3x3 gray image, fully opaque except a transparent pixel at (1,0). -/
def imgEr : List ℕ :=
  [9, 9, 9, 255] ++ [9, 9, 9, 0] ++ [9, 9, 9, 255] ++
  [9, 9, 9, 255] ++ [9, 9, 9, 255] ++ [9, 9, 9, 255] ++
  [9, 9, 9, 255] ++ [9, 9, 9, 255] ++ [9, 9, 9, 255]

/-! ## Claims -/

/-- Claim C4, counterexample: the pixel (r,g,b) = (200,235,0) at tolerance 0
satisfies the dominant-green conditions `g > r+30`, `g > b+30`, `g > 80`,
yet the flood-fill green hit-test classifies it as NOT background, because
the dominant-green override sits inside the stricter purity gate
`g > r*1.2 && g > b*1.2`, which `235 > 240` fails. -/
theorem dominantGreen_not_bg_counterexample :
    (235 > 200 + 30 ∧ 235 > 0 + 30 ∧ (235 : ℕ) > 80) ∧
      isBgGreenFlood 0 200 235 0 = false :=
  ⟨by decide, by norm_num [isBgGreenFlood]⟩

/-- Claim C4, amended: in flood mode with the green-screen target, every
pixel that passes the green-purity gate (`g > r*m` and `g > b*m` with
`m = 1.2*(1 - tolerance/200)`) and satisfies `g > r+30`, `g > b+30`,
`g > 80` is classified as background by `isBgGreenFlood`, independent of
the hue/saturation/value thresholds. -/
theorem isBgGreenFlood_dominant_green (tol : ℚ) (r g b : ℕ)
    (hgate1 : (g : ℚ) > r * (1.2 * (1 - tol / 100 * 0.5)))
    (hgate2 : (g : ℚ) > b * (1.2 * (1 - tol / 100 * 0.5)))
    (h1 : g > r + 30) (h2 : g > b + 30) (h3 : g > 80) :
    isBgGreenFlood tol r g b = true := by
  unfold isBgGreenFlood
  rw [if_pos ⟨hgate1, hgate2⟩, if_pos ⟨h1, h2, h3⟩]

/-- Witness for the amended C4 at the concrete pixel (0,85,0), tolerance 0:
a pixel the HSV value threshold alone would reject (`value = 1/3 < 0.5`),
yet background via the dominant-green override. -/
theorem isBgGreenFlood_dominant_green_witness :
    ((85 : ℚ) > 0 * (1.2 * (1 - (0 : ℚ) / 100 * 0.5)) ∧ 85 > 0 + 30 ∧
        (85 : ℕ) > 80) ∧
      isBgGreenFlood 0 0 85 0 = true :=
  ⟨⟨by norm_num, by decide, by decide⟩,
    isBgGreenFlood_dominant_green 0 0 85 0 (by norm_num) (by norm_num)
      (by decide) (by decide) (by decide)⟩

/-- Claim C6: erosion never modifies the alpha of a pixel on the outermost
border row or column, for any strength, and on a 1x1 image it is the
identity for every strength. -/
theorem applyErosion_border_untouched (data : List ℕ) (w h : ℕ) (s : ℤ) :
    (∀ x y : ℕ, x < w → y < h → (x = 0 ∨ x + 1 = w ∨ y = 0 ∨ y + 1 = h) →
      (applyErosion data w h s).getD ((y * w + x) * 4 + 3) 0 =
        data.getD ((y * w + x) * 4 + 3) 0) ∧
    (∀ s' : ℤ, applyErosion data 1 1 s' = data) := by
  constructor
  · intro x y hx hy hb
    apply applyErosion_getD_untouched
    intro idx hidx
    rw [mem_erodeCoords] at hidx
    obtain ⟨x', y', hx1, hx2, hy1, hy2, rfl⟩ := hidx
    intro heq
    have h1 : y * w + x = y' * w + x' := by omega
    have h2 := rowMajor_inj hx (by omega) h1
    omega
  · exact fun s' => applyErosion_one_by_one data s'

/-- Witness for C6: on the 3x3 image with a transparent hole at (1,0) and
strength 1, the border pixel (0,0) keeps its alpha. -/
theorem applyErosion_border_untouched_witness :
    ((0 : ℕ) < 3 ∧ ((0 : ℕ) = 0 ∨ 0 + 1 = 3 ∨ (0 : ℕ) = 0 ∨ 0 + 1 = 3)) ∧
      (applyErosion imgEr 3 3 1).getD ((0 * 3 + 0) * 4 + 3) 0 =
        imgEr.getD ((0 * 3 + 0) * 4 + 3) 0 :=
  ⟨⟨by decide, Or.inl rfl⟩,
    (applyErosion_border_untouched imgEr 3 3 1).1 0 0 (by decide) (by decide)
      (Or.inl rfl)⟩

/-- Claim C9: each pass of the pipeline, and hence the full dispatch, writes
only alpha bytes: every byte at an index not congruent to 3 mod 4 is
unchanged. -/
theorem ops_write_only_alpha :
    (∀ (data : List ℕ) (hex : String) (tol sm : ℚ) (j : ℕ), j % 4 ≠ 3 →
      (removeBgFeathered data hex tol sm).getD j 0 = data.getD j 0) ∧
    (∀ (data : List ℕ) (w h : ℕ) (hex : String) (tol : ℚ) (j : ℕ), j % 4 ≠ 3 →
      (removeBgFloodFill data w h hex tol).getD j 0 = data.getD j 0) ∧
    (∀ (data : List ℕ) (w h : ℕ) (s : ℤ) (j : ℕ), j % 4 ≠ 3 →
      (applyErosion data w h s).getD j 0 = data.getD j 0) ∧
    (∀ (req : Request) (j : ℕ), j % 4 ≠ 3 →
      (runPipeline req).getD j 0 = req.rawImageData.getD j 0) := by
  have hfea : ∀ (data : List ℕ) (hex : String) (tol sm : ℚ) (j : ℕ), j % 4 ≠ 3 →
      (removeBgFeathered data hex tol sm).getD j 0 = data.getD j 0 := by
    intro data hex tol sm j hj
    by_cases hhex : jsToLower hex = "#00ff00"
    · rw [removeBgFeathered_green data hex tol sm hhex]
      exact feaAlpha_getD_rgb _ _ _ _ data j hj
    · rw [removeBgFeathered_nonGreen data hex tol sm hhex]
      exact feaAlpha_getD_rgb _ _ _ _ data j hj
  have hflood : ∀ (data : List ℕ) (w h : ℕ) (hex : String) (tol : ℚ) (j : ℕ),
      j % 4 ≠ 3 → (removeBgFloodFill data w h hex tol).getD j 0 = data.getD j 0 := by
    intro data w h hex tol j hj
    unfold removeBgFloodFill
    rw [removeBgFloodFillWith_eq]
    exact floodFill_rgb_kept nbrOffs_self_mem nbrOffs_len_le j hj
  have herode : ∀ (data : List ℕ) (w h : ℕ) (s : ℤ) (j : ℕ), j % 4 ≠ 3 →
      (applyErosion data w h s).getD j 0 = data.getD j 0 := by
    intro data w h s j hj
    exact applyErosion_getD_untouched data w h s j (fun idx _ => by omega)
  refine ⟨hfea, hflood, herode, ?_⟩
  intro req j hj
  by_cases hmode : req.removalMode = "flood"
  · rw [runPipeline_flood req hmode, herode _ _ _ _ j hj, hflood _ _ _ _ _ j hj]
  · rw [runPipeline_global req hmode, herode _ _ _ _ j hj, hfea _ _ _ _ j hj]

/-- Witness for C9: flood fill on a single green pixel keeps the red byte. -/
theorem ops_write_only_alpha_witness :
    ((1 : ℕ) % 4 ≠ 3) ∧
      (removeBgFloodFill pxGreen 1 1 "#00ff00" 50).getD 1 0 = pxGreen.getD 1 0 :=
  ⟨by decide, ops_write_only_alpha.2.1 pxGreen 1 1 "#00ff00" 50 1 (by decide)⟩

/-- Claim C10: the flood-fill loop terminates for every image: within the
fuel `5*w*h + 4` the stack drains to empty, running longer changes nothing,
and `removeBgFloodFill` is exactly the state reached at that point. -/
theorem floodFill_terminates (w h : ℕ) (data : List ℕ) (hex : String)
    (tol : ℚ) :
    (floodRun w h (floodBgOf hex tol) nbrOffs (floodFuel w h (floodSeeds w h))
        ⟨data, ∅, floodSeeds w h⟩).stack = [] ∧
    (∀ n : ℕ,
      floodRun w h (floodBgOf hex tol) nbrOffs
          (floodFuel w h (floodSeeds w h) + n) ⟨data, ∅, floodSeeds w h⟩ =
        floodRun w h (floodBgOf hex tol) nbrOffs
          (floodFuel w h (floodSeeds w h)) ⟨data, ∅, floodSeeds w h⟩) ∧
    removeBgFloodFill data w h hex tol =
      (floodRun w h (floodBgOf hex tol) nbrOffs (floodFuel w h (floodSeeds w h))
        ⟨data, ∅, floodSeeds w h⟩).data := by
  have hstk := (@flood_final w h (floodBgOf hex tol) nbrOffs (floodSeeds w h)
    data nbrOffs_self_mem nbrOffs_len_le).2
  refine ⟨hstk, fun n => ?_, rfl⟩
  rw [floodRun_add, floodRun_stack_nil hstk]

/-- Claim C1, counterexample: in the 3x3 image `img3`, the green pixel at
(1,0) touches the top border and passes the background test, yet flood fill
leaves its alpha at 255, because the fill is seeded only at the four
corners and every corner is red: a border-touching background region is NOT
always cleared. -/
theorem flood_borderTouching_kept :
    bgAt (floodBgOf "#00ff00" 0) 3 img3 (1, 0) ∧ ((1 : ℤ), (0 : ℤ)).2 = 0 ∧
      (removeBgFloodFill img3 3 3 "#00ff00" 0).getD (offOf 3 (1, 0) * 4 + 3) 0 =
        255 := by
  have hgr : floodBgOf "#00ff00" 0 = isBgGreenFlood 0 :=
    floodBgOf_green _ _ (by decide)
  have hred : isBgGreenFlood 0 255 0 0 = false := by norm_num [isBgGreenFlood]
  refine ⟨?_, rfl, ?_⟩
  · unfold bgAt
    rw [hgr]
    have e0 : img3.getD (offOf 3 (1, 0) * 4) 0 = 0 := by decide
    have e1 : img3.getD (offOf 3 (1, 0) * 4 + 1) 0 = 255 := by decide
    have e2 : img3.getD (offOf 3 (1, 0) * 4 + 2) 0 = 0 := by decide
    rw [e0, e1, e2]
    norm_num [isBgGreenFlood]
  · unfold removeBgFloodFill
    rw [removeBgFloodFillWith_eq,
      floodFill_id_of_no_bg_seed nbrOffs_self_mem nbrOffs_len_le ?_]
    · decide
    · intro s hs _
      rw [hgr]
      simp only [floodSeeds, List.mem_cons, List.not_mem_nil, or_false] at hs
      unfold bgAt
      rcases hs with rfl | rfl | rfl | rfl
      · have e0 : img3.getD (offOf 3 (((3 : ℕ) : ℤ) - 1, ((3 : ℕ) : ℤ) - 1) * 4) 0 = 255 := by
          decide
        have e1 : img3.getD (offOf 3 (((3 : ℕ) : ℤ) - 1, ((3 : ℕ) : ℤ) - 1) * 4 + 1) 0 = 0 := by
          decide
        have e2 : img3.getD (offOf 3 (((3 : ℕ) : ℤ) - 1, ((3 : ℕ) : ℤ) - 1) * 4 + 2) 0 = 0 := by
          decide
        rw [e0, e1, e2, hred]
        exact Bool.false_ne_true
      · have e0 : img3.getD (offOf 3 (0, ((3 : ℕ) : ℤ) - 1) * 4) 0 = 255 := by decide
        have e1 : img3.getD (offOf 3 (0, ((3 : ℕ) : ℤ) - 1) * 4 + 1) 0 = 0 := by decide
        have e2 : img3.getD (offOf 3 (0, ((3 : ℕ) : ℤ) - 1) * 4 + 2) 0 = 0 := by decide
        rw [e0, e1, e2, hred]
        exact Bool.false_ne_true
      · have e0 : img3.getD (offOf 3 (((3 : ℕ) : ℤ) - 1, 0) * 4) 0 = 255 := by decide
        have e1 : img3.getD (offOf 3 (((3 : ℕ) : ℤ) - 1, 0) * 4 + 1) 0 = 0 := by decide
        have e2 : img3.getD (offOf 3 (((3 : ℕ) : ℤ) - 1, 0) * 4 + 2) 0 = 0 := by decide
        rw [e0, e1, e2, hred]
        exact Bool.false_ne_true
      · have e0 : img3.getD (offOf 3 (0, 0) * 4) 0 = 255 := by decide
        have e1 : img3.getD (offOf 3 (0, 0) * 4 + 1) 0 = 0 := by decide
        have e2 : img3.getD (offOf 3 (0, 0) * 4 + 2) 0 = 0 := by decide
        rw [e0, e1, e2, hred]
        exact Bool.false_ne_true

/-- Claim C1, amended: in flood mode, the alpha byte of an in-bounds pixel
is set to 0 when the pixel passes the background test and is reachable from
one of the four corner seeds through a 4-connected path of in-bounds
background pixels, and is left at its original value otherwise; in
particular a background region fully enclosed by non-background pixels
keeps its alpha, and a corner-connected background region is cleared. -/
theorem floodFill_alpha_iff_corner_reachable (data : List ℕ) (w h : ℕ)
    (hex : String) (tol : ℚ) (p : ℤ × ℤ) (hp : p ∈ grid w h) :
    (bgAt (floodBgOf hex tol) w data p ∧
        ReachesFrom (floodSeeds w h) w h (floodBgOf hex tol) data p →
      (removeBgFloodFill data w h hex tol).getD (offOf w p * 4 + 3) 0 = 0) ∧
    (¬(bgAt (floodBgOf hex tol) w data p ∧
        ReachesFrom (floodSeeds w h) w h (floodBgOf hex tol) data p) →
      (removeBgFloodFill data w h hex tol).getD (offOf w p * 4 + 3) 0 =
        data.getD (offOf w p * 4 + 3) 0) := by
  constructor
  · rintro ⟨hbg, hreach⟩
    unfold removeBgFloodFill
    rw [removeBgFloodFillWith_eq]
    exact floodFill_alpha_cleared nbrOffs_self_mem nbrOffs_len_le hbg hreach
  · intro hn
    unfold removeBgFloodFill
    rw [removeBgFloodFillWith_eq]
    exact floodFill_alpha_kept nbrOffs_self_mem nbrOffs_len_le hp hn

/-- Witness for the amended C1, the 4x4 red-ring scenario of the
specification: the enclosed green pixel (1,1) of `img4` keeps alpha 255 in
flood mode at tolerance 50, because no corner passes the background test. -/
theorem floodFill_alpha_iff_corner_reachable_witness :
    (((1 : ℤ), (1 : ℤ)) ∈ grid 4 4) ∧
      (removeBgFloodFill img4 4 4 "#00ff00" 50).getD
        (offOf 4 (1, 1) * 4 + 3) 0 = 255 := by
  have hp : ((1 : ℤ), (1 : ℤ)) ∈ grid 4 4 := by decide
  have hgr : floodBgOf "#00ff00" 50 = isBgGreenFlood 50 :=
    floodBgOf_green _ _ (by decide)
  have hred : isBgGreenFlood 50 255 0 0 = false := by norm_num [isBgGreenFlood]
  have hnot : ¬(bgAt (floodBgOf "#00ff00" 50) 4 img4 (1, 1) ∧
      ReachesFrom (floodSeeds 4 4) 4 4 (floodBgOf "#00ff00" 50) img4 (1, 1)) := by
    rintro ⟨-, s, hs, -, hsbg, -⟩
    rw [hgr] at hsbg
    unfold bgAt at hsbg
    simp only [floodSeeds, List.mem_cons, List.not_mem_nil, or_false] at hs
    rcases hs with rfl | rfl | rfl | rfl
    · have e0 : img4.getD (offOf 4 (((4 : ℕ) : ℤ) - 1, ((4 : ℕ) : ℤ) - 1) * 4) 0 = 255 := by
        decide
      have e1 : img4.getD (offOf 4 (((4 : ℕ) : ℤ) - 1, ((4 : ℕ) : ℤ) - 1) * 4 + 1) 0 = 0 := by
        decide
      have e2 : img4.getD (offOf 4 (((4 : ℕ) : ℤ) - 1, ((4 : ℕ) : ℤ) - 1) * 4 + 2) 0 = 0 := by
        decide
      rw [e0, e1, e2, hred] at hsbg
      exact Bool.false_ne_true hsbg
    · have e0 : img4.getD (offOf 4 (0, ((4 : ℕ) : ℤ) - 1) * 4) 0 = 255 := by decide
      have e1 : img4.getD (offOf 4 (0, ((4 : ℕ) : ℤ) - 1) * 4 + 1) 0 = 0 := by decide
      have e2 : img4.getD (offOf 4 (0, ((4 : ℕ) : ℤ) - 1) * 4 + 2) 0 = 0 := by decide
      rw [e0, e1, e2, hred] at hsbg
      exact Bool.false_ne_true hsbg
    · have e0 : img4.getD (offOf 4 (((4 : ℕ) : ℤ) - 1, 0) * 4) 0 = 255 := by decide
      have e1 : img4.getD (offOf 4 (((4 : ℕ) : ℤ) - 1, 0) * 4 + 1) 0 = 0 := by decide
      have e2 : img4.getD (offOf 4 (((4 : ℕ) : ℤ) - 1, 0) * 4 + 2) 0 = 0 := by decide
      rw [e0, e1, e2, hred] at hsbg
      exact Bool.false_ne_true hsbg
    · have e0 : img4.getD (offOf 4 (0, 0) * 4) 0 = 255 := by decide
      have e1 : img4.getD (offOf 4 (0, 0) * 4 + 1) 0 = 0 := by decide
      have e2 : img4.getD (offOf 4 (0, 0) * 4 + 2) 0 = 0 := by decide
      rw [e0, e1, e2, hred] at hsbg
      exact Bool.false_ne_true hsbg
  refine ⟨hp, ?_⟩
  rw [(floodFill_alpha_iff_corner_reachable img4 4 4 "#00ff00" 50 (1, 1) hp).2
    hnot]
  decide

/-- Claim C5: the final buffer of the flood fill does not depend on the
order in which neighbors are pushed or seeds are listed: running the loop
with any permutation of the neighbor offsets and any permutation of the
corner seeds produces exactly the buffer `removeBgFloodFill` produces. -/
theorem floodFill_order_independent (offs seeds : List (ℤ × ℤ))
    (data : List ℕ) (w h : ℕ) (hex : String) (tol : ℚ)
    (hperm : offs.Perm nbrOffs) (hsperm : seeds.Perm (floodSeeds w h)) :
    removeBgFloodFillWith offs seeds data w h hex tol =
      removeBgFloodFill data w h hex tol := by
  have hmem : ∀ dd : ℤ × ℤ, dd ∈ offs ↔ dd ∈ nbrOffs := fun dd => hperm.mem_iff
  have hoffs : offs.length ≤ 4 := by
    rw [hperm.length_eq]
    exact nbrOffs_len_le
  have hsm : ∀ s : ℤ × ℤ, s ∈ seeds ↔ s ∈ floodSeeds w h :=
    fun s => hsperm.mem_iff
  have hreach : ∀ p : ℤ × ℤ,
      ReachesFrom seeds w h (floodBgOf hex tol) data p ↔
        ReachesFrom (floodSeeds w h) w h (floodBgOf hex tol) data p := by
    intro p
    constructor
    · rintro ⟨s, hs, hrest⟩
      exact ⟨s, (hsm s).mp hs, hrest⟩
    · rintro ⟨s, hs, hrest⟩
      exact ⟨s, (hsm s).mpr hs, hrest⟩
  unfold removeBgFloodFill
  rw [removeBgFloodFillWith_eq, removeBgFloodFillWith_eq]
  apply List.ext_getElem
  · rw [floodFill_length hmem hoffs,
      floodFill_length nbrOffs_self_mem nbrOffs_len_le]
  · intro i h1 h2
    rw [← List.getD_eq_getElem _ 0 h1, ← List.getD_eq_getElem _ 0 h2]
    by_cases hi3 : i % 4 = 3
    · obtain ⟨k, rfl⟩ : ∃ k, i = k * 4 + 3 := ⟨i / 4, by omega⟩
      by_cases hk : k < w * h
      · obtain ⟨p, hp, hoffp⟩ := offOf_surj hk
        subst hoffp
        by_cases hbp : bgAt (floodBgOf hex tol) w data p ∧
            ReachesFrom (floodSeeds w h) w h (floodBgOf hex tol) data p
        · rw [floodFill_alpha_cleared hmem hoffs hbp.1 ((hreach p).mpr hbp.2),
            floodFill_alpha_cleared nbrOffs_self_mem nbrOffs_len_le hbp.1
              hbp.2]
        · rw [floodFill_alpha_kept hmem hoffs hp
              (fun hc => hbp ⟨hc.1, (hreach p).mp hc.2⟩),
            floodFill_alpha_kept nbrOffs_self_mem nbrOffs_len_le hp hbp]
      · rw [floodFill_alpha_beyond hmem hoffs k (by omega),
          floodFill_alpha_beyond nbrOffs_self_mem nbrOffs_len_le k (by omega)]
    · rw [floodFill_rgb_kept hmem hoffs i hi3,
        floodFill_rgb_kept nbrOffs_self_mem nbrOffs_len_le i hi3]

/-- Witness for C5: a reversed neighbor order and reversed seed order on a
2x1 green image give exactly the canonical flood-fill result. -/
theorem floodFill_order_independent_witness :
    ([((1 : ℤ), (0 : ℤ)), (-1, 0), (0, 1), (0, -1)].Perm nbrOffs) ∧
      removeBgFloodFillWith [((1 : ℤ), (0 : ℤ)), (-1, 0), (0, 1), (0, -1)]
          ((floodSeeds 2 1).reverse) (pxGreen ++ pxGreen) 2 1 "#00ff00" 50 =
        removeBgFloodFill (pxGreen ++ pxGreen) 2 1 "#00ff00" 50 :=
  ⟨by decide,
    floodFill_order_independent _ _ _ _ _ _ _ (by decide)
      ((floodSeeds 2 1).reverse_perm)⟩

theorem feaAlpha_single (simf : ℕ → ℕ → ℕ → ℝ) (es ee range : ℝ)
    (r g b a : ℕ) :
    feaAlpha simf es ee range [r, g, b, a] =
      [r, g, b, alphaRule (simf r g b) es ee range] := rfl

/-- Claim C2: in feathered mode with a non-green target, the written alpha
of every pixel follows the three-zone rule on
`sim = 1 - sqrt((r-tr)² + (g-tg)² + (b-tb)²)/442` with
`edgeStart = tolerance/100`, `edgeEnd = max(0, edgeStart - smoothness/100)`
and `range = edgeStart - edgeEnd`: alpha 0 at or above `edgeStart`, the
rounded linear ramp strictly between the edges, alpha 255 at or below
`edgeEnd` (the zones apply in this order, as in the specification's
bullet list: at `sim = edgeStart = edgeEnd` the first zone wins). -/
theorem feathered_nonGreen_three_zone (data : List ℕ) (hex : String)
    (tol sm : ℚ) (i : ℕ) (t : Rgb) (sim edgeStart edgeEnd range : ℝ)
    (hhex : jsToLower hex ≠ "#00ff00") (hlen : 4 * i + 3 < data.length)
    (ht : t = (hexToRgb hex).getD ⟨0, 0, 0⟩)
    (hsim : sim = 1 - Real.sqrt (((data.getD (4 * i) 0 : ℝ) - (t.r : ℝ)) ^ 2 +
      ((data.getD (4 * i + 1) 0 : ℝ) - (t.g : ℝ)) ^ 2 +
      ((data.getD (4 * i + 2) 0 : ℝ) - (t.b : ℝ)) ^ 2) / 442)
    (hes : edgeStart = (tol : ℝ) / 100)
    (hee : edgeEnd = max 0 (edgeStart - (sm : ℝ) / 100))
    (hr : range = edgeStart - edgeEnd) :
    (edgeStart ≤ sim →
      (removeBgFeathered data hex tol sm).getD (4 * i + 3) 0 = 0) ∧
    (edgeEnd < sim → sim < edgeStart →
      ((removeBgFeathered data hex tol sm).getD (4 * i + 3) 0 : ℤ) =
        round (255 * (1 - (sim - edgeEnd) / range))) ∧
    (sim ≤ edgeEnd → sim < edgeStart →
      (removeBgFeathered data hex tol sm).getD (4 * i + 3) 0 = 255) := by
  subst ht hes hee hr
  have hout : (removeBgFeathered data hex tol sm).getD (4 * i + 3) 0 =
      alphaRule
        (rgbSim ((hexToRgb hex).getD ⟨0, 0, 0⟩).r ((hexToRgb hex).getD ⟨0, 0, 0⟩).g
          ((hexToRgb hex).getD ⟨0, 0, 0⟩).b (data.getD (4 * i) 0)
          (data.getD (4 * i + 1) 0) (data.getD (4 * i + 2) 0))
        ((tol : ℝ) / 100) (max 0 ((tol : ℝ) / 100 - (sm : ℝ) / 100))
        ((tol : ℝ) / 100 - max 0 ((tol : ℝ) / 100 - (sm : ℝ) / 100)) := by
    rw [removeBgFeathered_nonGreen data hex tol sm hhex]
    exact feaAlpha_getD_alpha _ _ _ _ data i hlen
  have hsim' :
      rgbSim ((hexToRgb hex).getD ⟨0, 0, 0⟩).r ((hexToRgb hex).getD ⟨0, 0, 0⟩).g
        ((hexToRgb hex).getD ⟨0, 0, 0⟩).b (data.getD (4 * i) 0)
        (data.getD (4 * i + 1) 0) (data.getD (4 * i + 2) 0) = sim :=
    (rgbSim_eq _ _ _ _ _ _).trans hsim.symm
  rw [hsim'] at hout
  refine ⟨fun h1 => ?_, fun h2 h3 => ?_, fun h4 h5 => ?_⟩
  · rw [hout]
    exact alphaRule_zone1 h1
  · rw [hout, alphaRule_zone2 h2 h3]
    apply Int.toNat_of_nonneg
    rw [round_eq]
    apply Int.floor_nonneg.mpr
    have hrg : (0 : ℝ) <
        (tol : ℝ) / 100 - max 0 ((tol : ℝ) / 100 - (sm : ℝ) / 100) :=
      sub_pos.mpr (h2.trans h3)
    have hq : (sim - max 0 ((tol : ℝ) / 100 - (sm : ℝ) / 100)) /
        ((tol : ℝ) / 100 - max 0 ((tol : ℝ) / 100 - (sm : ℝ) / 100)) ≤ 1 := by
      rw [div_le_one hrg]
      linarith
    have h255 : (0 : ℝ) ≤ 255 * (1 - (sim - max 0 ((tol : ℝ) / 100 -
        (sm : ℝ) / 100)) /
        ((tol : ℝ) / 100 - max 0 ((tol : ℝ) / 100 - (sm : ℝ) / 100))) :=
      mul_nonneg (by norm_num) (by linarith)
    linarith
  · rw [hout]
    exact alphaRule_zone3 h4 h5

/-- Witness for C2: the pixel (255,0,0) with target `#ff0000` at
tolerance 50 has similarity 1 and lands in the first zone: alpha 0. -/
theorem feathered_nonGreen_three_zone_witness :
    (removeBgFeathered [255, 0, 0, 9] "#ff0000" 50 0).getD 3 0 = 0 := by
  have h := (feathered_nonGreen_three_zone [255, 0, 0, 9] "#ff0000" 50 0 0
    ⟨255, 0, 0⟩ _ _ _ _ (by decide) (by decide) (by decide) rfl rfl rfl rfl).1
  apply h
  have h0 : Real.sqrt ((((255 : ℕ) : ℝ) - ((255 : ℕ) : ℝ)) ^ 2 +
      (((0 : ℕ) : ℝ) - ((0 : ℕ) : ℝ)) ^ 2 +
      (((0 : ℕ) : ℝ) - ((0 : ℕ) : ℝ)) ^ 2) = 0 := by
    norm_num [Real.sqrt_zero]
  show ((50 : ℚ) : ℝ) / 100 ≤ 1 - Real.sqrt _ / 442
  rw [show (([255, 0, 0, 9] : List ℕ).getD (4 * 0) 0 : ℝ) = ((255 : ℕ) : ℝ)
      from rfl,
    show (([255, 0, 0, 9] : List ℕ).getD (4 * 0 + 1) 0 : ℝ) = ((0 : ℕ) : ℝ)
      from rfl,
    show (([255, 0, 0, 9] : List ℕ).getD (4 * 0 + 2) 0 : ℝ) = ((0 : ℕ) : ℝ)
      from rfl,
    show ((⟨255, 0, 0⟩ : Rgb).r : ℝ) = ((255 : ℕ) : ℝ) from rfl,
    show ((⟨255, 0, 0⟩ : Rgb).g : ℝ) = ((0 : ℕ) : ℝ) from rfl,
    show ((⟨255, 0, 0⟩ : Rgb).b : ℝ) = ((0 : ℕ) : ℝ) from rfl, h0]
  norm_num

/-- Claim C3, counterexample: for the gray pixel (100,100,100) the
similarity the green-screen feathered path feeds into the three-zone rule
is `1 - 277.5/442 ≈ 0.372`, not the pixel's HSV saturation 0: at
tolerance 30 the code writes alpha 0, while the rule applied to the HSV
saturation would write 255. -/
theorem feathered_green_not_saturation :
    greenSim 100 100 100 ≠ ((hsvSaturation 100 100 100 : ℚ) : ℝ) ∧
    (removeBgFeathered [100, 100, 100, 255] "#00ff00" 30 0).getD 3 0 = 0 ∧
    alphaRule ((hsvSaturation 100 100 100 : ℚ) : ℝ) (((30 : ℚ) : ℝ) / 100)
      (max 0 (((30 : ℚ) : ℝ) / 100 - ((0 : ℚ) : ℝ) / 100))
      (((30 : ℚ) : ℝ) / 100 -
        max 0 (((30 : ℚ) : ℝ) / 100 - ((0 : ℚ) : ℝ) / 100)) = 255 := by
  have hsat : ((hsvSaturation 100 100 100 : ℚ) : ℝ) = 0 := by
    norm_num [hsvSaturation]
  refine ⟨?_, ?_, ?_⟩
  · rw [greenSim_eq, hsat]
    norm_num
  · rw [removeBgFeathered_green _ _ _ _ (by decide)]
    have h := feaAlpha_getD_alpha greenSim (((30 : ℚ) : ℝ) / 100)
      (max 0 (((30 : ℚ) : ℝ) / 100 - ((0 : ℚ) : ℝ) / 100))
      (((30 : ℚ) : ℝ) / 100 -
        max 0 (((30 : ℚ) : ℝ) / 100 - ((0 : ℚ) : ℝ) / 100))
      [100, 100, 100, 255] 0 (by decide)
    have h3 : (4 : ℕ) * 0 + 3 = 3 := rfl
    rw [h3] at h
    rw [h]
    apply alphaRule_zone1
    rw [show ([100, 100, 100, 255] : List ℕ).getD (4 * 0) 0 = 100 from rfl,
      show ([100, 100, 100, 255] : List ℕ).getD (4 * 0 + 1) 0 = 100 from rfl,
      show ([100, 100, 100, 255] : List ℕ).getD (4 * 0 + 2) 0 = 100 from rfl,
      greenSim_eq]
    norm_num
  · apply alphaRule_zone3
    · rw [hsat]
      exact le_max_left 0 _
    · rw [hsat]
      norm_num

/-- Claim C3, amended: in feathered mode with the green-screen target
(case-insensitive `#00FF00`), the similarity fed into the three-zone rule
is `1 - (0.5*|g-255| + r + b)/442`, a weighted distance to pure green, not
the pixel's HSV saturation; the written alpha follows the three-zone rule
on that score. -/
theorem feathered_green_three_zone (data : List ℕ) (hex : String)
    (tol sm : ℚ) (i : ℕ) (sim edgeStart edgeEnd range : ℝ)
    (hhex : jsToLower hex = "#00ff00") (hlen : 4 * i + 3 < data.length)
    (hsim : sim = 1 - (|(data.getD (4 * i + 1) 0 : ℝ) - 255| * 0.5 +
      ((data.getD (4 * i) 0 : ℝ) + (data.getD (4 * i + 2) 0 : ℝ))) / 442)
    (hes : edgeStart = (tol : ℝ) / 100)
    (hee : edgeEnd = max 0 (edgeStart - (sm : ℝ) / 100))
    (hr : range = edgeStart - edgeEnd) :
    (edgeStart ≤ sim →
      (removeBgFeathered data hex tol sm).getD (4 * i + 3) 0 = 0) ∧
    (edgeEnd < sim → sim < edgeStart →
      ((removeBgFeathered data hex tol sm).getD (4 * i + 3) 0 : ℤ) =
        round (255 * (1 - (sim - edgeEnd) / range))) ∧
    (sim ≤ edgeEnd → sim < edgeStart →
      (removeBgFeathered data hex tol sm).getD (4 * i + 3) 0 = 255) := by
  subst hes hee hr
  have hout : (removeBgFeathered data hex tol sm).getD (4 * i + 3) 0 =
      alphaRule
        (greenSim (data.getD (4 * i) 0) (data.getD (4 * i + 1) 0)
          (data.getD (4 * i + 2) 0))
        ((tol : ℝ) / 100) (max 0 ((tol : ℝ) / 100 - (sm : ℝ) / 100))
        ((tol : ℝ) / 100 - max 0 ((tol : ℝ) / 100 - (sm : ℝ) / 100)) := by
    rw [removeBgFeathered_green data hex tol sm hhex]
    exact feaAlpha_getD_alpha _ _ _ _ data i hlen
  have hsim' : greenSim (data.getD (4 * i) 0) (data.getD (4 * i + 1) 0)
      (data.getD (4 * i + 2) 0) = sim :=
    (greenSim_eq _ _ _).trans hsim.symm
  rw [hsim'] at hout
  refine ⟨fun h1 => ?_, fun h2 h3 => ?_, fun h4 h5 => ?_⟩
  · rw [hout]
    exact alphaRule_zone1 h1
  · rw [hout, alphaRule_zone2 h2 h3]
    apply Int.toNat_of_nonneg
    rw [round_eq]
    apply Int.floor_nonneg.mpr
    have hrg : (0 : ℝ) <
        (tol : ℝ) / 100 - max 0 ((tol : ℝ) / 100 - (sm : ℝ) / 100) :=
      sub_pos.mpr (h2.trans h3)
    have hq : (sim - max 0 ((tol : ℝ) / 100 - (sm : ℝ) / 100)) /
        ((tol : ℝ) / 100 - max 0 ((tol : ℝ) / 100 - (sm : ℝ) / 100)) ≤ 1 := by
      rw [div_le_one hrg]
      linarith
    have h255 : (0 : ℝ) ≤ 255 * (1 - (sim - max 0 ((tol : ℝ) / 100 -
        (sm : ℝ) / 100)) /
        ((tol : ℝ) / 100 - max 0 ((tol : ℝ) / 100 - (sm : ℝ) / 100))) :=
      mul_nonneg (by norm_num) (by linarith)
    linarith
  · rw [hout]
    exact alphaRule_zone3 h4 h5

/-- Witness for the amended C3: the pure-green pixel with uppercase target
`#00FF00` at tolerance 50 has score 1 and is cleared. -/
theorem feathered_green_three_zone_witness :
    (removeBgFeathered [0, 255, 0, 9] "#00FF00" 50 0).getD 3 0 = 0 := by
  have h := (feathered_green_three_zone [0, 255, 0, 9] "#00FF00" 50 0 0
    _ _ _ _ (by decide) (by decide) rfl rfl rfl rfl).1
  apply h
  show ((50 : ℚ) : ℝ) / 100 ≤
    1 - (|(([0, 255, 0, 9] : List ℕ).getD (4 * 0 + 1) 0 : ℝ) - 255| * 0.5 +
      ((([0, 255, 0, 9] : List ℕ).getD (4 * 0) 0 : ℝ) +
        (([0, 255, 0, 9] : List ℕ).getD (4 * 0 + 2) 0 : ℝ))) / 442
  rw [show (([0, 255, 0, 9] : List ℕ).getD (4 * 0 + 1) 0 : ℝ) = ((255 : ℕ) : ℝ)
      from rfl,
    show (([0, 255, 0, 9] : List ℕ).getD (4 * 0) 0 : ℝ) = ((0 : ℕ) : ℝ)
      from rfl,
    show (([0, 255, 0, 9] : List ℕ).getD (4 * 0 + 2) 0 : ℝ) = ((0 : ℕ) : ℝ)
      from rfl]
  norm_num

/-- A request whose buffer (4 bytes, one green pixel) does not match its
claimed 3x3 dimensions (36 bytes). -/
def reqMismatch : Request :=
  ⟨[0, 255, 0, 255], 3, 3, "global", "#00ff00", 100, 0, 0⟩

/-- Claim C7 (code bug): the worker performs no buffer-size validation at
all: on a request with `data.length ≠ width*height*4` it still runs the
matte and mutates the buffer instead of failing fast, as evaluated here on
`reqMismatch`. -/
theorem pipeline_no_buffer_validation :
    reqMismatch.rawImageData.length ≠
        reqMismatch.width * reqMismatch.height * 4 ∧
      runPipeline reqMismatch ≠ reqMismatch.rawImageData := by
  constructor
  · decide
  · have h1 : runPipeline reqMismatch =
        removeBgFeathered [0, 255, 0, 255] "#00ff00" 100 0 := by
      rw [runPipeline_global reqMismatch (by decide)]
      exact applyErosion_nonpos (by decide)
    rw [h1, removeBgFeathered_green _ _ _ _ (by decide), feaAlpha_single]
    have hsim : greenSim 0 255 0 = 1 := by
      rw [greenSim_eq]
      norm_num
    rw [hsim, alphaRule_zone1 (by norm_num)]
    decide

/-- The single-pixel request with out-of-range tolerance 150. -/
def reqTol150 : Request :=
  ⟨[255, 0, 0, 255], 1, 1, "global", "#ff0000", 150, 0, 0⟩

/-- The same request with the tolerance clamped to 100. -/
def reqTol100 : Request :=
  ⟨[255, 0, 0, 255], 1, 1, "global", "#ff0000", 100, 0, 0⟩

/-- Claim C8, counterexample: tolerance is NOT clamped.  With tolerance 150
and smoothness 0 the exact-match pixel keeps alpha 255 (edgeStart = 1.5 is
unreachable and edgeEnd = 1.5 swallows the pixel), while the clamped run
with tolerance 100 clears it to 0, so the results differ. -/
theorem pipeline_unclamped_counterexample :
    runPipeline reqTol150 = [255, 0, 0, 255] ∧
    runPipeline reqTol100 = [255, 0, 0, 0] ∧
    runPipeline reqTol150 ≠ runPipeline reqTol100 := by
  have hsim : rgbSim 255 0 0 255 0 0 = 1 := by
    rw [rgbSim_eq]
    norm_num [Real.sqrt_zero]
  have ht : (hexToRgb "#ff0000").getD ⟨0, 0, 0⟩ = ⟨255, 0, 0⟩ := by decide
  have h150 : runPipeline reqTol150 = [255, 0, 0, 255] := by
    have h1 : runPipeline reqTol150 =
        removeBgFeathered [255, 0, 0, 255] "#ff0000" 150 0 := by
      rw [runPipeline_global reqTol150 (by decide)]
      exact applyErosion_nonpos (by decide)
    rw [h1, removeBgFeathered_nonGreen _ _ _ _ (by decide), ht, feaAlpha_single,
      hsim, alphaRule_zone3 ?hle ?hlt]
    case hle =>
      exact le_max_of_le_right (by norm_num)
    case hlt =>
      norm_num
  have h100 : runPipeline reqTol100 = [255, 0, 0, 0] := by
    have h1 : runPipeline reqTol100 =
        removeBgFeathered [255, 0, 0, 255] "#ff0000" 100 0 := by
      rw [runPipeline_global reqTol100 (by decide)]
      exact applyErosion_nonpos (by decide)
    rw [h1, removeBgFeathered_nonGreen _ _ _ _ (by decide), ht, feaAlpha_single,
      hsim, alphaRule_zone1 (by norm_num)]
  refine ⟨h150, h100, ?_⟩
  rw [h150, h100]
  decide

/-- Claim C8, amended: the pipeline never rejects out-of-range parameters:
`erodeStrength ≤ 0` acts as strength 0 (erosion is the identity), and for
every request — tolerance, smoothness and strength unrestricted — the
pipeline totally produces a buffer of the input's length; but tolerance and
smoothness are used unclamped, so the result can differ from the
clamped-parameter run. -/
theorem pipeline_total_and_strength_floor :
    (∀ (data : List ℕ) (w h : ℕ) (s : ℤ), s ≤ 0 →
      applyErosion data w h s = data) ∧
    (∀ req : Request, (runPipeline req).length = req.rawImageData.length) := by
  refine ⟨fun data w h s hs => applyErosion_nonpos hs, fun req => ?_⟩
  by_cases hmode : req.removalMode = "flood"
  · rw [runPipeline_flood req hmode, applyErosion_length,
      removeBgFloodFill_length]
  · rw [runPipeline_global req hmode, applyErosion_length,
      removeBgFeathered_length]

/-- Witness for the amended C8: a negative strength leaves the buffer
unchanged. -/
theorem pipeline_total_and_strength_floor_witness :
    ((-2 : ℤ) ≤ 0) ∧ applyErosion [7] 5 5 (-2) = [7] :=
  ⟨by decide, pipeline_total_and_strength_floor.1 [7] 5 5 (-2) (by decide)⟩
